import Mathlib

/-!
Verification development for the mdbackup backup orchestrator,
`src/mdbackup/_commands/backup.py`.  The Python functions of that file are
shallowly embedded as executable Lean definitions: Python dicts become
insertion-ordered association lists, exceptions become `Except`, and the
side effects of a run (lifecycle hooks, directory creation, renames,
symlink swaps, manifest writes, log diagnostics) are recorded in an event
trace.  External collaborators that are part of the repository but not in
scope (the `Tasks` definition parser, the action pipeline runner
`run_task_actions`, the hook dispatcher `run_hook`, `write_data_file`) are
modelled as oracles or trace events, following the specification of their
contracts.
-/

namespace Mdbackup

/-- A Python value as it appears in environment dictionaries, action
parameter dictionaries and secret-backend alias mappings: a string, a dict
(insertion-ordered association list), a `pathlib.Path` object, Python
`None`, or some other scalar (modelled by an integer tag). -/
inductive Value where
  | vstr : String → Value
  | vdict : List (String × Value) → Value
  | vpath : String → Value
  | vnone : Value
  | vint : Int → Value

/-- Whether a `Value` is a Python dict (`isinstance(value, dict)`). -/
def Value.isDict : Value → Bool
  | .vdict _ => true
  | _ => false

/-- The entries of a dict value (empty for non-dicts). -/
def Value.asDict : Value → List (String × Value)
  | .vdict d => d
  | _ => []

/-- Python dict lookup `d.get(k)`: the value of the first entry with key
`k`. -/
def pyGet {α : Type} (d : List (String × α)) (k : String) : Option α :=
  (d.find? (fun p => p.1 == k)).map (fun p => p.2)

/-- Python dict assignment `d[k] = v`: replaces the value of an existing
key in place, otherwise appends the new entry at the end (insertion
order). -/
def pySet {α : Type} : List (String × α) → String → α → List (String × α)
  | [], k, v => [(k, v)]
  | (k', v') :: rest, k, v =>
    if k' == k then (k, v) :: rest else (k', v') :: pySet rest k v

/-- Python dict merge `{**a, **b}`: the entries of `b` assigned over `a`
in order, so `b` overrides `a` and new keys of `b` go to the end. -/
def pyUpdate {α : Type} (a b : List (String × α)) : List (String × α) :=
  b.foldl (fun acc p => pySet acc p.1 p.2) a

/-! ### String utilities

The Python string and `pathlib` operations used by `backup.py`, modelled
over the character list of a `String` so that all of them are structurally
recursive and evaluate on concrete inputs. -/

/-- Python `s.startswith(pre)`. -/
def strStartsWith (s pre : String) : Bool :=
  pre.data.isPrefixOf s.data

/-- Python `s[1:]`. -/
def strDrop1 (s : String) : String :=
  String.mk (s.data.drop 1)

/-- Split a character list at every occurrence of the separator; like
Python `str.split(c)` the result always has at least one (possibly empty)
piece. -/
def splitOnChar (c : Char) : List Char → List (List Char)
  | [] => [[]]
  | x :: xs =>
    let r := splitOnChar c xs
    if x == c then [] :: r
    else
      match r with
      | [] => [[x]]
      | h :: t => (x :: h) :: t

/-- Python `s.split(c)` for one separator character. -/
def pySplit (s : String) (c : Char) : List String :=
  (splitOnChar c s.data).map String.mk

/-- Code-point comparison of characters, as Python compares strings. -/
def charLt (a b : Char) : Bool :=
  decide (a.toNat < b.toNat)

/-- Lexicographic order on character lists (Python string `<=`). -/
def lexLe : List Char → List Char → Bool
  | [], _ => true
  | _ :: _, [] => false
  | a :: as, b :: bs => if a == b then lexLe as bs else charLt a b

/-- Python string `s <= t`. -/
def strLe (s t : String) : Bool :=
  lexLe s.data t.data

/-- Insert into a lexicographically sorted list (`list.sort()` step). -/
def insertSorted (x : String) : List String → List String
  | [] => [x]
  | y :: ys => if strLe x y then x :: y :: ys else y :: insertSorted x ys

/-- Python `list.sort()` on strings: ascending lexicographic order by code
points. -/
def sortStrings (l : List String) : List String :=
  l.foldr insertSorted []

/-- `pathlib` path joining `parent / child` as a string: an absolute
child replaces the parent, otherwise the pieces are joined with a slash.
Like `pathlib`, `..` components are NOT normalized away. -/
def pathJoin (parent child : String) : String :=
  if strStartsWith child "/" then child else parent ++ "/" ++ child

/-- Resolve `.` and `..` components of an absolute path, as the operating
system does when a directory is actually created at that path (this is
not something `backup.py` itself ever does to the strings it compares). -/
def normalizePath (p : String) : String :=
  let comps := (splitOnChar '/' p.data).filter (fun c => !(c.isEmpty))
  let norm := comps.foldl
    (fun acc c =>
      if c == ['.', '.'] then acc.dropLast
      else if c == ['.'] then acc
      else acc ++ [c]) ([] : List (List Char))
  String.mk ('/' :: (norm.map String.mk).foldr
    (fun s acc => if acc.isEmpty then s.data else s.data ++ '/' :: acc) [])

/-- Python `Path(r).relative_to(bp)`: the suffix of `r` below `bp`, or a
`ValueError` when `r` is not below `bp`. -/
def relativeTo (r bp : String) : Except String String :=
  if r == bp then .ok "."
  else if strStartsWith r (bp ++ "/") then .ok (String.mk (r.data.drop (bp.data.length + 1)))
  else .error "ValueError: path is not relative to the backup path"

/-! ### Secret backends and secret resolution -/

/-- A secret backend declaration (`SecretConfig`): its diagnostic `type`
label, its private alias mapping (the `env` section of its configuration)
and its `get_secret` lookup capability.  `get_secret` receives whatever
value the alias descent produced. -/
structure SecretConfig where
  type : String
  env : Value
  getSecret : Value → Option String

/-- The descent loop of `_resolve_secret`: starting from the backend's
alias mapping, consume the key parts one at a time; each step requires the
current value to be a dict containing the part. -/
def descend : Value → List String → Option Value
  | v, [] => some v
  | .vdict d, k :: ks =>
    match pyGet d k with
    | some v => descend v ks
    | none => none
  | _, _ :: _ => none

/-- `_resolve_secret(key_parts, secret)` (backup.py lines 125-143):
descend into the backend's private alias mapping with the dotted key
parts; if the full path resolves, ask the backend's `get_secret` for the
secret, otherwise return `None`. -/
def resolveSecret (keyParts : List String) (secret : SecretConfig) : Option String :=
  if keyParts.isEmpty then none
  else
    match descend secret.env keyParts with
    | some v => secret.getSecret v
    | none => none

/-! ### Task definitions and the manifest -/

/-- One task of a definition file (`Task`): name, task-scope environment,
the ordered action pipeline (each action is the Python dict it was parsed
from, of which only the first key is ever consulted), and `stopOnFail`. -/
structure Task where
  name : String
  env : List (String × Value)
  actions : List (List (String × Value))
  stop_on_fail : Bool

/-- A parsed task-definition file (`Tasks`): its name, its source file
identifier (`file_name`, used as manifest key), the definition-scope
environment, the optional `inside` folder and the ordered tasks. -/
structure Tasks where
  name : String
  file_name : String
  env : List (String × Value)
  inside_folder : Option String
  tasks : List Task

/-- One task record inside the manifest. -/
structure TaskManifestEntry where
  name : String
  env : List (String × Value)
  actions : List (List (String × Value))
  result : String

/-- One task-definition record inside the manifest. -/
structure DefManifestEntry where
  env : List (String × Value)
  inside : Option String
  tasks : List TaskManifestEntry

/-- The manifest dict built by `_create_backup_manifest`. -/
structure Manifest where
  version : Nat
  createdAt : String
  uploaded : Bool
  tasksDefinitions : List (String × DefManifestEntry)

/-- `MANIFEST_VERSION` (backup.py line 16). -/
def MANIFEST_VERSION : Nat := 1

/-! ### The event trace

Every externally visible side effect of a run is recorded as an event:
lifecycle hooks fired through `run_hook` (modelled from the spec: the hook
dispatcher of `mdbackup/hooks.py` is not under `src/`, its contract is to
fire a named event with positional string arguments), directory creation,
pipeline invocations (`run_task_actions`), renames, manifest writes,
symlink swaps, directory removal and the unresolved-alias warning
diagnostics of `_resolve_secrets`. -/
inductive Event where
  | hook : String → List String → Event
  | warn : String → String → Event
  | mkdirP : String → Event
  | chmod : String → Event
  | runActions : String → List (List (String × Value)) → Event
  | renameDir : String → String → Event
  | writeManifest : String → Manifest → Event
  | unlink : String → Event
  | symlink : String → String → Event
  | rmtree : String → Event

/-- Whether an event is a `run_hook` invocation with the given name. -/
def isHookNamed (name : String) : Event → Bool
  | .hook n _ => n == name
  | _ => false

/-- Whether an event is a pipeline invocation (`run_task_actions`), i.e.
evidence that some task's actions were executed. -/
def isRunActions : Event → Bool
  | .runActions _ _ => true
  | _ => false

/-! ### `_resolve_secrets` -/

/-- The exception raised by `_resolve_secrets` when a `#`-alias is found
while the list of secret backends is empty: the `for secret in secrets:`
loop never runs, so the local variable `new_value` is unbound when
`if new_value is None:` is evaluated. -/
def nameErrorMsg : String := "NameError: name new_value is not defined"

mutual

/-- The entry loop of `_resolve_secrets` (backup.py lines 146-177) over
the items of an environment dict, producing the warning diagnostics it
logs and either the resolved copy of the dict or the exception it
raises. -/
def resolveEntries : List (String × Value) → List SecretConfig → List Event × Except String (List (String × Value))
  | [], _ => ([], .ok [])
  | (k, v) :: rest, secrets =>
    let p1 := resolveEntryValue k v secrets
    match p1.2 with
    | .error e => (p1.1, .error e)
    | .ok v' =>
      let p2 := resolveEntries rest secrets
      match p2.2 with
      | .error e => (p1.1 ++ p2.1, .error e)
      | .ok l => (p1.1 ++ p2.1, .ok ((k, v') :: l))
termination_by structural l => l

/-- The body of the entry loop of `_resolve_secrets` for one key/value
pair: a string value starting with `#` is looked up through the backends
in declaration order, the first non-`None` result winning; if no backend
resolves it, a warning is logged and the literal alias string is kept; a
dict value recurses; anything else passes through.  With an empty backend
list an alias raises `NameError` (see `nameErrorMsg`). -/
def resolveEntryValue (k : String) (v : Value) (secrets : List SecretConfig) : List Event × Except String Value :=
  match v with
  | .vstr s =>
    if strStartsWith s "#" then
      if secrets.isEmpty then ([], .error nameErrorMsg)
      else
        match secrets.findSome? (fun b => resolveSecret (pySplit (strDrop1 s) '.') b) with
        | some nv => ([], .ok (.vstr nv))
        | none => ([Event.warn k s], .ok (.vstr s))
    else ([], .ok (.vstr s))
  | .vdict d =>
    let p := resolveEntries d secrets
    (p.1, p.2.map Value.vdict)
  | v => ([], .ok v)
termination_by structural v

end

/-- `_resolve_secrets(env, secrets)` applied to an arbitrary value: a
non-dict argument is returned unchanged at once (the `isinstance` guard
at the top of the function); a dict is processed entry by entry. -/
def resolveSecretsV (v : Value) (secrets : List SecretConfig) : List Event × Except String Value :=
  match v with
  | .vdict d =>
    let p := resolveEntries d secrets
    (p.1, p.2.map Value.vdict)
  | v => ([], .ok v)

/-! ### `_inject_resolved_env_into_actions` -/

/-- The per-action loop of `_inject_resolved_env_into_actions` (backup.py
lines 51-65).  For each action dict, only its first key/value pair is
consulted (`next(iter(it.items()))`; an empty action dict raises
`StopIteration`).  The value is passed through `_resolve_secrets`; only
when it is a dict is the resolved run environment merged underneath it and
the merge resolved again — a non-dict value is appended unchanged and the
resolved copy is discarded. -/
def injectLoop (resolvedEnv : List (String × Value)) (secrets : List SecretConfig) :
    List (List (String × Value)) → List Event × Except String (List (List (String × Value)))
  | [] => ([], .ok [])
  | action :: rest =>
    match action with
    | [] => ([], .error "StopIteration")
    | (key, value) :: _ =>
      let pv := resolveSecretsV value secrets
      match pv.2 with
      | .error e => (pv.1, .error e)
      | .ok resolvedValue =>
        if value.isDict then
          let merged := pyUpdate resolvedEnv resolvedValue.asDict
          let pm := resolveSecretsV (.vdict merged) secrets
          match pm.2 with
          | .error e => (pv.1 ++ pm.1, .error e)
          | .ok nv =>
            let pr := injectLoop resolvedEnv secrets rest
            (pv.1 ++ pm.1 ++ pr.1, pr.2.map (fun l => [(key, nv)] :: l))
        else
          let pr := injectLoop resolvedEnv secrets rest
          (pv.1 ++ pr.1, pr.2.map (fun l => [(key, value)] :: l))

/-- `_inject_resolved_env_into_actions(actions, env, secrets)` (backup.py
lines 41-65): resolve all secrets of the run environment once, then
process each action through `injectLoop`. -/
def injectResolvedEnvIntoActions (actions : List (List (String × Value))) (env : List (String × Value))
    (secrets : List SecretConfig) : List Event × Except String (List (List (String × Value))) :=
  let p0 := resolveEntries env secrets
  match p0.2 with
  | .error e => (p0.1, .error e)
  | .ok resolvedEnv =>
    let p1 := injectLoop resolvedEnv secrets actions
    (p0.1 ++ p1.1, p1.2)

/-! ### `_run_tasks` -/

/-- The arguments threaded through the per-task loop of `_run_tasks`: the
pipeline invoker oracle (`run_task_actions`, an external collaborator of
the core, modelled from the spec as a function from the task name and its
resolved action list to the filesystem path the pipeline produced or an
error), the definition name, the run's backup path, the (possibly
`inside`-rebased) final backup path and previous-backup path, the
definition-scope environment and the secret backends. -/
structure TaskCtx where
  oracle : String → List (List (String × Value)) → Except String String
  tasksName : String
  backupPath : String
  finalBackupPath : String
  prevBackupPath : Option String
  env : List (String × Value)
  secrets : List SecretConfig

/-- The merged environment handed to
`_inject_resolved_env_into_actions` for one task (backup.py lines
100-107): `{**env, **task.env, '_backup_path': ..., '_prev_backup_path':
...}` — the two reserved keys hold `Path` objects (or `None`). -/
def taskMergedEnv (ctx : TaskCtx) (task : Task) : List (String × Value) :=
  pySet
    (pySet (pyUpdate ctx.env task.env) "_backup_path" (.vpath ctx.finalBackupPath))
    "_prev_backup_path"
    (match ctx.prevBackupPath with
     | some p => .vpath p
     | none => .vnone)

/-- The body of the `try:` block for one task (backup.py lines 99-109):
inject the resolved environment into the actions, invoke the pipeline,
and record the produced path relative to the backup path.  Any failure is
the exception caught by the surrounding `except`. -/
def taskBody (ctx : TaskCtx) (task : Task) : List Event × Except String String :=
  let p1 := injectResolvedEnvIntoActions task.actions (taskMergedEnv ctx task) ctx.secrets
  match p1.2 with
  | .error e => (p1.1, .error e)
  | .ok actions =>
    let tr := p1.1 ++ [Event.runActions task.name actions]
    match ctx.oracle task.name actions with
    | .error e => (tr, .error e)
    | .ok produced =>
      match relativeTo produced ctx.backupPath with
      | .error e => (tr, .error e)
      | .ok rel => (tr, .ok rel)

/-- One iteration of the task loop of `_run_tasks` (backup.py lines
96-120): fire the `:before` hook, run the task body; on success store the
result and fire the `:after` hook; on failure fire the `:error` hook and
then either re-raise (when `stopOnFail` is set — note that the `:after`
hook line is NOT reached in that case) or continue with no result
recorded, firing the `:after` hook. -/
def taskStep (ctx : TaskCtx) (results : List (String × String)) (task : Task) :
    List Event × Except String (List (String × String)) :=
  let beforeE := Event.hook ("backup:tasks:" ++ ctx.tasksName ++ ":task:" ++ task.name ++ ":before")
    [ctx.finalBackupPath, ctx.tasksName, task.name]
  let afterE := Event.hook ("backup:tasks:" ++ ctx.tasksName ++ ":task:" ++ task.name ++ ":after")
    [ctx.backupPath, ctx.tasksName, task.name]
  let pb := taskBody ctx task
  match pb.2 with
  | .ok rel => (beforeE :: pb.1 ++ [afterE], .ok (pySet results task.name rel))
  | .error e =>
    let errE := Event.hook ("backup:tasks:" ++ ctx.tasksName ++ ":task:" ++ task.name ++ ":error")
      [e, ctx.backupPath, ctx.tasksName, task.name]
    if task.stop_on_fail then (beforeE :: pb.1 ++ [errE], .error e)
    else (beforeE :: pb.1 ++ [errE, afterE], .ok results)

/-- The task loop of `_run_tasks` over the remaining tasks, accumulating
the results dict. -/
def runTasksLoop (ctx : TaskCtx) (results : List (String × String)) :
    List Task → List Event × Except String (List (String × String))
  | [] => ([], .ok results)
  | t :: rest =>
    let p := taskStep ctx results t
    match p.2 with
    | .error e => (p.1, .error e)
    | .ok res2 =>
      let p2 := runTasksLoop ctx res2 rest
      (p.1 ++ p2.1, p2.2)

/-! ### Filesystem state -/

/-- The filesystem state under the backups root that the orchestrator
mutates: the set of existing directories (stored normalized, as the
operating system resolves `..` when a directory is created) and the
target of the `current` symlink if it exists. -/
structure FS where
  dirs : List String
  current : Option String

/-- `mkdir(exist_ok=True, parents=True)`: record the (normalized)
directory. -/
def addDir (dirs : List String) (p : String) : List String :=
  let q := normalizePath p
  if dirs.contains q then dirs else dirs ++ [q]

/-- `rename(old, new)`: the directory and everything below it move. -/
def renameDirs (dirs : List String) (old new2 : String) : List String :=
  dirs.map (fun d =>
    if d == old then new2
    else if strStartsWith d (old ++ "/") then new2 ++ String.mk (d.data.drop old.data.length)
    else d)

/-- `shutil.rmtree(p)`: the directory and everything below it go away. -/
def rmtreeDirs (dirs : List String) (p : String) : List String :=
  dirs.filter (fun d => !(d == p || strStartsWith d (p ++ "/")))

/-- `_run_tasks(tasks, backup_path, prev_backup_path, env, secrets)`
(backup.py lines 68-122).  When `inside` is set, the final backup path is
rebased under it; the guard only checks that the joined path STRING
starts with the backup path string (`..` components survive `pathlib`
joining, so they pass the guard) and then the folder is created.  Then
each task runs through `taskStep`. -/
def runTasks (oracle : String → List (List (String × Value)) → Except String String)
    (tasks : Tasks) (backupPath : String) (prev : Option String)
    (env : List (String × Value)) (secrets : List SecretConfig) (fs : FS) :
    List Event × FS × Except String (List (String × String)) :=
  match tasks.inside_folder with
  | none =>
    let ctx : TaskCtx := ⟨oracle, tasks.name, backupPath, backupPath, prev, env, secrets⟩
    let p := runTasksLoop ctx [] tasks.tasks
    (p.1, fs, p.2)
  | some f =>
    let finalBp := pathJoin backupPath f
    if strStartsWith finalBp backupPath then
      let prev2 := prev.map (fun p => pathJoin p f)
      let ctx : TaskCtx := ⟨oracle, tasks.name, backupPath, finalBp, prev2, env, secrets⟩
      let fs2 : FS := { fs with dirs := addDir fs.dirs finalBp }
      let p := runTasksLoop ctx [] tasks.tasks
      ([Event.mkdirP finalBp, Event.chmod finalBp] ++ p.1, fs2, p.2)
    else
      ([], fs, .error "inside is not valid: cannot go outside the backup path, use relative paths")

/-! ### Timestamps -/

/-- A UTC timestamp truncated to minutes, the argument of
`datetime.isoformat(timespec=minutes)`.  `datetime` guarantees
`1 <= year <= 9999`, `1 <= month <= 12`, and so on, so each field fits
its zero-padded width. -/
structure DT where
  year : Nat
  month : Nat
  day : Nat
  hour : Nat
  minute : Nat

/-- Zero-padded two-digit decimal rendering (`%02d` for values below
100). -/
def pad2 (n : Nat) : String :=
  String.mk [Nat.digitChar (n / 10 % 10), Nat.digitChar (n % 10)]

/-- Zero-padded four-digit decimal rendering (`%04d` for values below
10000). -/
def pad4 (n : Nat) : String :=
  String.mk [Nat.digitChar (n / 1000 % 10), Nat.digitChar (n / 100 % 10),
    Nat.digitChar (n / 10 % 10), Nat.digitChar (n % 10)]

/-- `datetime.isoformat(timespec=minutes)`: `YYYY-MM-DDTHH:MM`. -/
def isoMinutes (t : DT) : String :=
  pad4 t.year ++ "-" ++ pad2 t.month ++ "-" ++ pad2 t.day ++ "T" ++ pad2 t.hour ++ ":" ++ pad2 t.minute

/-- Whether a string matches the ISO-8601-minute pattern
`YYYY-MM-DDTHH:MM`. -/
def isoMinutePattern (s : String) : Bool :=
  match s.data with
  | [y1, y2, y3, y4, s1, m1, m2, s2, d1, d2, t1, h1, h2, c1, n1, n2] =>
    y1.isDigit && y2.isDigit && y3.isDigit && y4.isDigit && s1 == '-' &&
    m1.isDigit && m2.isDigit && s2 == '-' && d1.isDigit && d2.isDigit &&
    t1 == 'T' && h1.isDigit && h2.isDigit && c1 == ':' && n1.isDigit && n2.isDigit
  | _ => false

/-- `_generate_backup_path(backups_folder)` (backup.py lines 19-26). -/
def generateBackupPath (backupsFolder : String) (now : DT) : String :=
  pathJoin backupsFolder (isoMinutes now)

/-! ### `_create_backup_manifest` -/

/-- The results accumulated per definition file:
`Dict[str, Tuple[Tasks, Dict[str, Path]]]`. -/
abbrev Results := List (String × (Tasks × List (String × String)))

/-- The task records of one definition's manifest entry (backup.py lines
196-201): the unguarded `tasks_results[task.name]` lookup raises
`KeyError` when a task has no recorded result. -/
def manifestTaskEntries (tres : List (String × String)) :
    List Task → Except String (List TaskManifestEntry)
  | [] => .ok []
  | t :: rest =>
    match pyGet tres t.name with
    | none => .error "KeyError"
    | some r =>
      match manifestTaskEntries tres rest with
      | .error e => .error e
      | .ok l => .ok ({ name := t.name, env := t.env, actions := t.actions, result := r } :: l)

/-- The `tasksDefinitions` mapping of the manifest, one entry per item of
the results dict, in insertion order. -/
def manifestDefEntries : Results → Except String (List (String × DefManifestEntry))
  | [] => .ok []
  | (fn, td, tres) :: rest =>
    match manifestTaskEntries tres td.tasks with
    | .error e => .error e
    | .ok ts =>
      match manifestDefEntries rest with
      | .error e => .error e
      | .ok l => .ok ((fn, { env := td.env, inside := td.inside_folder, tasks := ts }) :: l)

/-- `_create_backup_manifest(backup_path, results)` (backup.py lines
180-206): build the manifest dict with `version = MANIFEST_VERSION`.
The `createdAt` timestamp is rendered from the run clock. -/
def createBackupManifest (now : DT) (results : Results) : Except String Manifest :=
  match manifestDefEntries results with
  | .error e => .error e
  | .ok entries =>
    .ok { version := MANIFEST_VERSION, createdAt := isoMinutes now, uploaded := false,
          tasksDefinitions := entries }

/-! ### `_do_backup` and `main_backup` -/

/-- The configuration of one run (`Config` plus the external
collaborators): the backups root, the configuration folder, the global
environment, the secret backends, the content listing of the `tasks`
directory, the definition parser (modelled from the spec: the `Tasks`
constructor of `mdbackup/tasks/tasks.py` is not under `src/`; it parses a
definition file or raises a parse error), the action pipeline invoker
(modelled from the spec, see `TaskCtx`) and the run clock. -/
structure Cfg where
  backupsFolder : String
  configFolder : String
  env : List (String × Value)
  secrets : List SecretConfig
  tasksDirExists : Bool
  taskFiles : List String
  parse : String → Except String Tasks
  oracle : String → List (List (String × Value)) → Except String String
  now : DT

/-- Whether a file name has one of the recognized definition extensions
(`x.name.split('.')[-1] in ('json', 'yaml', 'yml')`). -/
def extOk (name : String) : Bool :=
  match (pySplit name '.').getLast? with
  | some e => ["json", "yaml", "yml"].contains e
  | none => false

/-- `_get_tasks_definitions(config_path)` (backup.py lines 29-38):
require the `tasks` directory to exist, keep the files with recognized
extensions, sort lexicographically and return absolute paths. -/
def getTasksDefinitions (cfg : Cfg) : Except String (List String) :=
  if cfg.tasksDirExists then
    .ok ((sortStrings (cfg.taskFiles.filter extOk)).map
      (fun n => cfg.configFolder ++ "/tasks/" ++ n))
  else .error "The tasks folder does not exist"

/-- The wrapped exception `_do_backup` raises when one of a definition's
tasks failed (backup.py line 253). -/
def wrapFailMsg (n : String) : String :=
  "One of the tasks of " ++ n ++ " failed, backup will stop"

/-- One iteration of the definition loop of `_do_backup` (backup.py lines
236-255): parse the definition file (a parse failure is logged and
re-raised), fire the definition `:before` hook, resolve the
definition-scope environment, run the tasks; on failure fire the
definition `:error` hook and raise the wrapped exception, on success
store the results under the definition's file identifier and fire the
`:after` hook. -/
def defStep (cfg : Cfg) (tmp : String) (prev : Option String) (genv : List (String × Value))
    (fs : FS) (acc : Results) (file : String) : List Event × FS × Except String Results :=
  match cfg.parse file with
  | .error e => ([], fs, .error e)
  | .ok td =>
    let beforeE := Event.hook ("backup:tasks:" ++ td.name ++ ":before") [tmp, td.name]
    let pe := resolveEntries (pyUpdate genv td.env) cfg.secrets
    match pe.2 with
    | .error e =>
      (beforeE :: pe.1 ++ [Event.hook ("backup:tasks:" ++ td.name ++ ":error") [tmp, e, td.name]],
       fs, .error (wrapFailMsg td.name))
    | .ok te =>
      let pr := runTasks cfg.oracle td tmp prev te cfg.secrets fs
      match pr.2.2 with
      | .error e =>
        (beforeE :: pe.1 ++ pr.1 ++ [Event.hook ("backup:tasks:" ++ td.name ++ ":error") [tmp, e, td.name]],
         pr.2.1, .error (wrapFailMsg td.name))
      | .ok res =>
        (beforeE :: pe.1 ++ pr.1 ++ [Event.hook ("backup:tasks:" ++ td.name ++ ":after") [tmp, td.name]],
         pr.2.1, .ok (pySet acc td.file_name (td, res)))

/-- The definition loop of `_do_backup` over the sorted definition
files. -/
def defsLoop (cfg : Cfg) (tmp : String) (prev : Option String) (genv : List (String × Value)) :
    FS → Results → List String → List Event × FS × Except String Results
  | fs, acc, [] => ([], fs, .ok acc)
  | fs, acc, f :: rest =>
    let p := defStep cfg tmp prev genv fs acc f
    match p.2.2 with
    | .error e => (p.1, p.2.1, .error e)
    | .ok acc2 =>
      let p2 := defsLoop cfg tmp prev genv p.2.1 acc2 rest
      (p.1 ++ p2.1, p2.2.1, p2.2.2)

/-- The `.partial` working directory path of a run
(`Path(backups_folder, '.partial')`, backup.py line 225). -/
def doBackupTmp (cfg : Cfg) : String := pathJoin cfg.backupsFolder ".partial"

/-- The filesystem state after `tmp_backup.mkdir(exist_ok=True,
parents=True)` (backup.py line 233). -/
def doBackupFs1 (cfg : Cfg) (fs : FS) : FS :=
  { fs with dirs := addDir fs.dirs (doBackupTmp cfg) }

/-- `_do_backup(backups_folder, config_path, ..., env, secrets)`
(backup.py lines 209-271): compute the previous `current` target, resolve
the global environment, fire `backup:before`, create `.partial`, run the
definition loop; on full success rename `.partial` to the timestamped
directory, write the manifest there, swap the `current` symlink
(unlinking it first when it exists) and fire `backup:after`. -/
def doBackup (cfg : Cfg) (fs : FS) : List Event × FS × Except String String :=
  let pg := resolveEntries cfg.env cfg.secrets
  match pg.2 with
  | .error e => (pg.1, fs, .error e)
  | .ok genv =>
    let tr1 := pg.1 ++ [Event.hook "backup:before" [doBackupTmp cfg],
      Event.mkdirP (doBackupTmp cfg), Event.chmod (doBackupTmp cfg)]
    match getTasksDefinitions cfg with
    | .error e => (tr1, doBackupFs1 cfg fs, .error e)
    | .ok files =>
      let pl := defsLoop cfg (doBackupTmp cfg) fs.current genv (doBackupFs1 cfg fs) [] files
      match pl.2.2 with
      | .error e => (tr1 ++ pl.1, pl.2.1, .error e)
      | .ok results =>
        let backup := generateBackupPath cfg.backupsFolder cfg.now
        let fs3 : FS := { pl.2.1 with dirs := renameDirs pl.2.1.dirs (doBackupTmp cfg) backup }
        match createBackupManifest cfg.now results with
        | .error e => (tr1 ++ pl.1 ++ [Event.renameDir (doBackupTmp cfg) backup], fs3, .error e)
        | .ok m =>
          let cur := pathJoin cfg.backupsFolder "current"
          let swap :=
            match fs3.current with
            | some _ => [Event.unlink cur, Event.symlink backup cur]
            | none => [Event.symlink backup cur]
          (tr1 ++ pl.1 ++ [Event.renameDir (doBackupTmp cfg) backup, Event.writeManifest backup m] ++
             swap ++ [Event.hook "backup:after" [backup]],
           { fs3 with current := some backup }, .ok backup)

/-- The outcome of `main_backup`: the created backup path, `sys.exit(1)`
after the cleanup, or a crash by an exception that escapes `main_backup`
itself (the interpreter also exits nonzero then). -/
inductive Outcome where
  | ok : String → Outcome
  | exitFail : Outcome
  | crash : String → Outcome

/-- Whether an outcome is a successful run. -/
def Outcome.isSuccess : Outcome → Bool
  | .ok _ => true
  | _ => false

/-- `main_backup(config)` (backup.py lines 274-289): run `_do_backup`; on
any exception fire `backup:error`, remove the `.partial` directory with
`shutil.rmtree` (which itself raises `FileNotFoundError` when `.partial`
does not exist, crashing before `sys.exit(1)`) and exit nonzero. -/
def mainBackup (cfg : Cfg) (fs : FS) : List Event × FS × Outcome :=
  let p := doBackup cfg fs
  match p.2.2 with
  | .ok backup => (p.1, p.2.1, .ok backup)
  | .error e =>
    let trE := p.1 ++ [Event.hook "backup:error" [doBackupTmp cfg, e, ""]]
    if p.2.1.dirs.contains (doBackupTmp cfg) then
      (trE ++ [Event.rmtree (doBackupTmp cfg)],
       { p.2.1 with dirs := rmtreeDirs p.2.1.dirs (doBackupTmp cfg) }, .exitFail)
    else (trE, p.2.1, .crash "FileNotFoundError")

/-! ### Helper notions used only to state properties -/

/-- Parse every definition file in order; `.ok` exactly when all of them
parse.  Used to speak about the definitions a fully successful run
processed. -/
def parseAll (cfg : Cfg) : List String → Except String (List Tasks)
  | [] => .ok []
  | f :: rest =>
    match cfg.parse f with
    | .error e => .error e
    | .ok td =>
      match parseAll cfg rest with
      | .error e => .error e
      | .ok l => .ok (td :: l)

/-- Key insertion as a Python dict does it: an existing key keeps its
position, a new key goes to the end. -/
def keysInsert (ks : List String) (k : String) : List String :=
  if ks.contains k then ks else ks ++ [k]

/-- The key list obtained by assigning the given keys in order into a
Python dict with the given initial keys. -/
def pyKeysFold (ks : List String) (names : List String) : List String :=
  names.foldl keysInsert ks

/-! ### Basic lemmas -/

theorem findSome?_append_some {α β : Type} (f : α → Option β) (l₁ l₂ : List α) {v : β}
    (h : l₁.findSome? f = some v) : (l₁ ++ l₂).findSome? f = some v := by
  induction l₁ with
  | nil => simp [List.findSome?] at h
  | cons a as ih =>
    rw [List.cons_append]
    rw [List.findSome?] at h ⊢
    cases hfa : f a with
    | some b =>
      rw [hfa] at h
      exact h
    | none =>
      rw [hfa] at h
      exact ih h

theorem findSome?_none_of_all {α β : Type} (f : α → Option β) (l : List α)
    (h : ∀ a ∈ l, f a = none) : l.findSome? f = none := by
  induction l with
  | nil => simp [List.findSome?]
  | cons a as ih =>
    rw [List.findSome?]
    rw [h a (by simp)]
    exact ih (fun b hb => h b (by simp [hb]))

theorem pyGet_cons {α : Type} (a k' : String) (b : α) (l : List (String × α)) :
    pyGet ((a, b) :: l) k' = if a == k' then some b else pyGet l k' := by
  by_cases h : (a == k') = true <;> simp [pyGet, List.find?, h]

theorem pyGet_pySet {α : Type} (d : List (String × α)) (k k' : String) (v : α) :
    pyGet (pySet d k v) k' = if k == k' then some v else pyGet d k' := by
  induction d with
  | nil => by_cases h : (k == k') = true <;> simp [pySet, pyGet, List.find?, h]
  | cons p rest ih =>
    obtain ⟨k₀, v₀⟩ := p
    by_cases h0 : (k₀ == k) = true
    · have hk : k₀ = k := by simpa using h0
      subst hk
      rw [show pySet ((k₀, v₀) :: rest) k₀ v = (k₀, v) :: rest by simp [pySet]]
      by_cases h1 : (k₀ == k') = true <;> simp [pyGet_cons, h1]
    · rw [show pySet ((k₀, v₀) :: rest) k v = (k₀, v₀) :: pySet rest k v by simp [pySet, h0]]
      by_cases h1 : (k₀ == k') = true
      · have hk : k₀ = k' := by simpa using h1
        subst hk
        have hkk : (k == k₀) = false := by
          simp only [beq_eq_false_iff_ne]
          intro hcon
          subst hcon
          simp at h0
        simp [pyGet_cons, h1, hkk]
      · simp [pyGet_cons, h1, ih]

theorem pyGet_eq_none_of_not_mem {α : Type} (l : List (String × α)) (k : String)
    (h : k ∉ l.map Prod.fst) : pyGet l k = none := by
  induction l with
  | nil => rfl
  | cons p rest ih =>
    obtain ⟨k₀, v₀⟩ := p
    have h1 : (k₀ == k) = false := by
      simp only [beq_eq_false_iff_ne]
      intro hcon
      exact h (by simp [hcon])
    rw [pyGet_cons]
    simp only [h1, Bool.false_eq_true, if_false]
    exact ih (fun hm => h (by simp [hm]))

theorem pyGet_pyUpdate {α : Type} (a b : List (String × α)) (k : String)
    (hb : (b.map Prod.fst).Nodup) :
    pyGet (pyUpdate a b) k = ((pyGet b k).orElse (fun _ => pyGet a k)) := by
  induction b generalizing a with
  | nil => simp [pyUpdate, pyGet, List.find?, Option.orElse]
  | cons p rest ih =>
    obtain ⟨k₁, v₁⟩ := p
    rw [List.map_cons, List.nodup_cons] at hb
    have hstep : pyUpdate a ((k₁, v₁) :: rest) = pyUpdate (pySet a k₁ v₁) rest := rfl
    rw [hstep, ih _ hb.2, pyGet_cons]
    by_cases h1 : (k₁ == k) = true
    · have hk : k₁ = k := by simpa using h1
      subst hk
      have hrest : pyGet rest k₁ = none := pyGet_eq_none_of_not_mem rest k₁ hb.1
      simp [h1, hrest, pyGet_pySet, Option.orElse]
    · simp [h1, pyGet_pySet, Option.orElse]

/-! ### C5 and C6: secret alias resolution -/

/-- C5: for a `#`-prefixed string value, the remainder is split on dots
and looked up through the backends in declaration order; as soon as some
backend of a prefix of the declaration list yields a secret, that value
wins and the entry resolves to it regardless of any later backends. -/
theorem secret_resolution_first_backend_wins (k s v : String)
    (s₁ s₂ : List SecretConfig)
    (hs : strStartsWith s "#" = true)
    (hf : s₁.findSome? (fun b => resolveSecret (pySplit (strDrop1 s) '.') b) = some v) :
    resolveEntries [(k, Value.vstr s)] (s₁ ++ s₂) = ([], .ok [(k, Value.vstr v)]) := by
  have happ : (s₁ ++ s₂).findSome? (fun b => resolveSecret (pySplit (strDrop1 s) '.') b) = some v :=
    findSome?_append_some _ _ _ hf
  have hempty : (s₁ ++ s₂).isEmpty = false := by
    cases s₁ with
    | nil => simp [List.findSome?] at hf
    | cons x xs => simp
  simp [resolveEntries, resolveEntryValue, hs, hempty, happ]

/-- A first backend whose mapping resolves the path and whose lookup
yields a secret: used to witness `secret_resolution_first_backend_wins`. -/
def scFirst : SecretConfig :=
  ⟨"file", Value.vdict [("a", Value.vdict [("b", Value.vstr "key1")])],
   fun v => match v with | .vstr "key1" => some "SECRET" | _ => none⟩

/-- A later backend that would also resolve the path, with a different
secret: it must not be consulted once the first backend yielded. -/
def scSecond : SecretConfig :=
  ⟨"other", Value.vdict [("a", Value.vdict [("b", Value.vstr "key2")])],
   fun _ => some "OTHER"⟩

/-- Witness for C5: with two backends both able to resolve `#a.b`, the
first backend's secret wins. -/
theorem secret_resolution_first_backend_wins_witness :
    resolveEntries [("K", Value.vstr "#a.b")] [scFirst, scSecond] =
      ([], .ok [("K", Value.vstr "SECRET")]) :=
  secret_resolution_first_backend_wins "K" "#a.b" "SECRET" [scFirst] [scSecond] (by rfl) (by rfl)

/-- C6 counterexample: with an EMPTY backend list, a `#`-alias does not
pass through unchanged — `_resolve_secrets` raises `NameError` (the
`for secret in secrets:` loop never binds `new_value`), so the run does
abort at this layer, contrary to the claim. -/
theorem unresolved_alias_empty_backends_raises :
    resolveEntries [("k", Value.vstr "#a")] [] = ([], .error nameErrorMsg) ∧
    (resolveEntries [("k", Value.vstr "#a")] []).2 ≠ .ok [("k", Value.vstr "#a")] := by
  refine ⟨rfl, ?_⟩
  rw [show (resolveEntries [("k", Value.vstr "#a")] []).2 = .error nameErrorMsg from rfl]
  simp

/-- C6 (amended): when at least one backend is configured and none of
them resolves the alias, the original literal alias string is kept in the
output environment, a warning diagnostic is emitted, and resolution
returns normally. -/
theorem unresolved_alias_passthrough (k s : String) (secrets : List SecretConfig)
    (hne : secrets ≠ [])
    (hs : strStartsWith s "#" = true)
    (hnone : ∀ b ∈ secrets, resolveSecret (pySplit (strDrop1 s) '.') b = none) :
    resolveEntries [(k, Value.vstr s)] secrets = ([Event.warn k s], .ok [(k, Value.vstr s)]) := by
  have hempty : secrets.isEmpty = false := by
    cases secrets with
    | nil => exact absurd rfl hne
    | cons x xs => simp
  have hf := findSome?_none_of_all (fun b => resolveSecret (pySplit (strDrop1 s) '.') b) secrets hnone
  simp [resolveEntries, resolveEntryValue, hs, hempty, hf]

/-- A backend that resolves nothing. -/
def scEmptyMap : SecretConfig := ⟨"file", Value.vdict [], fun _ => none⟩

/-- Witness for C6 (amended): one configured backend, alias unresolved,
literal passthrough plus warning. -/
theorem unresolved_alias_passthrough_witness :
    resolveEntries [("k", Value.vstr "#a")] [scEmptyMap] =
      ([Event.warn "k" "#a"], .ok [("k", Value.vstr "#a")]) :=
  unresolved_alias_passthrough "k" "#a" [scEmptyMap] (by simp) (by rfl)
    (by intro b hb; simp at hb; subst hb; rfl)

/-! ### C10: non-mapping action parameters -/

/-- C10: when an action's parameter value is not a mapping (absent,
`None`, or any scalar — including a `#`-prefixed string), injecting the
resolved environment returns that action unchanged: the merged run
environment is not added and no secret resolution is applied to the
parameter (the resolved copy the code computes is discarded). -/
theorem inject_non_mapping_action_unchanged (k : String) (v : Value)
    (env : List (String × Value)) (secrets : List SecretConfig)
    (tr : List Event) (re : List (String × Value))
    (henv : resolveEntries env secrets = (tr, .ok re))
    (hv : v.isDict = false) :
    injectResolvedEnvIntoActions [[(k, v)]] env secrets = (tr, .ok [[(k, v)]]) := by
  cases v <;> simp_all [injectResolvedEnvIntoActions, injectLoop, resolveSecretsV, Value.isDict,
    Except.map]

/-- A backend that resolves every alias: used to witness that even a
resolvable `#`-string parameter passes through unresolved. -/
def scResolving : SecretConfig := ⟨"file", Value.vdict [("a", Value.vstr "key")], fun _ => some "S"⟩

/-- Witness for C10: a `#`-string action parameter that the configured
backend could resolve is still returned verbatim, with no environment
injected. -/
theorem inject_non_mapping_action_unchanged_witness :
    injectResolvedEnvIntoActions [[("tar", Value.vstr "#a")]] [("E", Value.vstr "x")] [scResolving]
      = ([], .ok [[("tar", Value.vstr "#a")]]) :=
  inject_non_mapping_action_unchanged "tar" (Value.vstr "#a") [("E", Value.vstr "x")]
    [scResolving] [] [("E", Value.vstr "x")] (by rfl) (by rfl)

/-! ### C7: environment precedence -/

/-- The pipeline invoker used in the concrete precedence scenario. -/
def c7Oracle : String → List (List (String × Value)) → Except String String :=
  fun _ _ => .ok "/backups/.partial/out"

/-- The resolved global environment of the scenario (`_do_backup` line
228) for global scope `{A: 1}`. -/
def c7Resolved : List (String × Value) :=
  match (resolveEntries [("A", Value.vstr "1")] []).2 with
  | .ok l => l
  | .error _ => []

/-- The resolved definition-scope environment (`_do_backup` line 247)
for definition scope `{A: 2, B: 3}`. -/
def c7DefScope : List (String × Value) :=
  match (resolveEntries (pyUpdate c7Resolved [("A", Value.vstr "2"), ("B", Value.vstr "3")]) []).2 with
  | .ok l => l
  | .error _ => []

/-- The task of the scenario, with task scope `{B: 4, C: 5}` and one
action with an empty parameter mapping. -/
def c7Task : Task := ⟨"t", [("B", Value.vstr "4"), ("C", Value.vstr "5")], [[("noop", Value.vdict [])]], true⟩

/-- The task context `_run_tasks` builds for that task. -/
def c7Ctx : TaskCtx := ⟨c7Oracle, "d", "/backups/.partial", "/backups/.partial", none, c7DefScope, []⟩

/-- The parameter mapping the action actually receives after
`_inject_resolved_env_into_actions`: the environment visible to the
task's actions. -/
def c7Visible : List (String × Value) :=
  match (injectResolvedEnvIntoActions c7Task.actions (taskMergedEnv c7Ctx c7Task) []).2 with
  | .ok [[(_, Value.vdict p)]] => p
  | _ => []

/-- C7: the environment visible to a task's actions is the layered merge
of the scopes with task overriding definition overriding global: in
general a `{**a, **b}` merge gives `b` precedence over `a` whenever `b`
has no duplicate keys, and in the concrete scenario of global `{A:1}`,
definition `{A:2, B:3}`, task `{B:4, C:5}` the composed code path ends
with the actions seeing `{A:2, B:4, C:5}`. -/
theorem env_precedence_task_over_def_over_global :
    (∀ (a b : List (String × Value)) (k : String), (b.map Prod.fst).Nodup →
       pyGet (pyUpdate a b) k = ((pyGet b k).orElse (fun _ => pyGet a k))) ∧
    pyGet c7Visible "A" = some (Value.vstr "2") ∧
    pyGet c7Visible "B" = some (Value.vstr "4") ∧
    pyGet c7Visible "C" = some (Value.vstr "5") :=
  ⟨fun a b k hb => pyGet_pyUpdate a b k hb, rfl, rfl, rfl⟩

/-- Witness for C7: the general merge-precedence conjunct applied at a
concrete merge. -/
theorem env_precedence_task_over_def_over_global_witness :
    pyGet (pyUpdate [("A", Value.vstr "1")] [("A", Value.vstr "2"), ("B", Value.vstr "3")]) "A"
      = ((pyGet [("A", Value.vstr "2"), ("B", Value.vstr "3")] "A").orElse
          (fun _ => pyGet [("A", Value.vstr "1")] "A")) :=
  env_precedence_task_over_def_over_global.1
    [("A", Value.vstr "1")] [("A", Value.vstr "2"), ("B", Value.vstr "3")] "A" (by simp)

/-! ### C3: the `inside` containment guard -/

/-- The task-definition set of the escape scenario: `inside` set to
`../escape`, no tasks. -/
def c3Tasks : Tasks := ⟨"d", "d.yaml", [], some "../escape", []⟩

/-- A pipeline invoker for the escape scenario (never reached). -/
def c3Oracle : String → List (List (String × Value)) → Except String String :=
  fun _ _ => .ok "/x"

/-- C3 (code bug): an `insideFolder` of `../escape` is NOT rejected.
`pathlib` keeps the `..` component when joining, so the joined string
still starts with the backup path and the `startswith` guard of
`_run_tasks` (backup.py line 89) passes; the definition then runs
normally (`.ok`), `mkdir` is invoked on the un-normalized path, and the
directory the operating system actually creates (`/backups/escape`) lies
outside the working root — no `ConfigurationError`/`ValueError` is ever
raised. -/
theorem inside_folder_escape_not_rejected :
    (runTasks c3Oracle c3Tasks "/backups/.partial" none [] [] ⟨["/backups/.partial"], none⟩).2.2
      = .ok [] ∧
    (runTasks c3Oracle c3Tasks "/backups/.partial" none [] [] ⟨["/backups/.partial"], none⟩).1
      = [Event.mkdirP "/backups/.partial/../escape", Event.chmod "/backups/.partial/../escape"] ∧
    (runTasks c3Oracle c3Tasks "/backups/.partial" none [] [] ⟨["/backups/.partial"], none⟩).2.1.dirs
      = ["/backups/.partial", "/backups/escape"] ∧
    strStartsWith (normalizePath (pathJoin "/backups/.partial" "../escape")) "/backups/.partial"
      = false :=
  ⟨rfl, rfl, rfl, rfl⟩

/-! ### C8: hook firing around a task -/

/-- Whether an event is a `run_hook` invocation. -/
def isHook : Event → Bool
  | .hook _ _ => true
  | _ => false

mutual

theorem resolveEntries_no_hook (secrets : List SecretConfig) :
    ∀ (l : List (String × Value)) (ev : Event), ev ∈ (resolveEntries l secrets).1 → isHook ev = false
  | [], ev, h => by simp [resolveEntries] at h
  | (k, v) :: rest, ev, h => by
    rw [resolveEntries] at h
    rcases hv : (resolveEntryValue k v secrets).2 with e | v2
    · simp only [hv] at h
      exact resolveEntryValue_no_hook secrets k v ev h
    · rcases hr : (resolveEntries rest secrets).2 with e2 | l2 <;>
        simp only [hv, hr] at h <;>
        rw [List.mem_append] at h <;>
        rcases h with h | h
      · exact resolveEntryValue_no_hook secrets k v ev h
      · exact resolveEntries_no_hook secrets rest ev h
      · exact resolveEntryValue_no_hook secrets k v ev h
      · exact resolveEntries_no_hook secrets rest ev h
  termination_by structural l _ _ => l

theorem resolveEntryValue_no_hook (secrets : List SecretConfig) :
    ∀ (k : String) (v : Value) (ev : Event), ev ∈ (resolveEntryValue k v secrets).1 → isHook ev = false
  | k, .vstr s, ev, h => by
    rw [resolveEntryValue] at h
    split at h
    · split at h
      · simp at h
      · split at h
        · simp at h
        · simp at h
          subst h
          rfl
    · simp at h
  | k, .vdict d, ev, h => by
    rw [resolveEntryValue] at h
    exact resolveEntries_no_hook secrets d ev (by simpa using h)
  | k, .vpath p, ev, h => by simp [resolveEntryValue] at h
  | k, .vnone, ev, h => by simp [resolveEntryValue] at h
  | k, .vint n, ev, h => by simp [resolveEntryValue] at h
  termination_by structural _ v _ => v

end

theorem resolveSecretsV_no_hook (v : Value) (secrets : List SecretConfig) (ev : Event)
    (h : ev ∈ (resolveSecretsV v secrets).1) : isHook ev = false := by
  cases v with
  | vdict d => exact resolveEntries_no_hook secrets d ev (by simpa [resolveSecretsV] using h)
  | vstr s => simp [resolveSecretsV] at h
  | vpath p => simp [resolveSecretsV] at h
  | vnone => simp [resolveSecretsV] at h
  | vint n => simp [resolveSecretsV] at h

theorem injectLoop_no_hook (re : List (String × Value)) (secrets : List SecretConfig) :
    ∀ (actions : List (List (String × Value))) (ev : Event),
      ev ∈ (injectLoop re secrets actions).1 → isHook ev = false
  | [], ev, h => by simp [injectLoop] at h
  | action :: rest, ev, h => by
    rcases action with _ | ⟨⟨key, value⟩, tail⟩ <;> rw [injectLoop] at h
    · simp at h
    · rcases hv : (resolveSecretsV value secrets).2 with e | rv
      · simp only [hv] at h
        exact resolveSecretsV_no_hook value secrets ev h
      · by_cases hd : value.isDict = true
        · rcases hm : (resolveSecretsV (Value.vdict (pyUpdate re rv.asDict)) secrets).2 with e2 | nv
          · simp only [hv, hm, hd, if_true] at h
            rw [List.mem_append] at h
            rcases h with h | h
            · exact resolveSecretsV_no_hook value secrets ev h
            · exact resolveSecretsV_no_hook _ secrets ev h
          · simp only [hv, hm, hd, if_true] at h
            rw [List.mem_append, List.mem_append] at h
            rcases h with (h | h) | h
            · exact resolveSecretsV_no_hook value secrets ev h
            · exact resolveSecretsV_no_hook _ secrets ev h
            · exact injectLoop_no_hook re secrets rest ev h
        · simp only [hv, hd, Bool.false_eq_true, if_false] at h
          rw [List.mem_append] at h
          rcases h with h | h
          · exact resolveSecretsV_no_hook value secrets ev h
          · exact injectLoop_no_hook re secrets rest ev h

theorem inject_no_hook (actions : List (List (String × Value))) (env : List (String × Value))
    (secrets : List SecretConfig) (ev : Event)
    (h : ev ∈ (injectResolvedEnvIntoActions actions env secrets).1) : isHook ev = false := by
  rw [injectResolvedEnvIntoActions] at h
  rcases he : (resolveEntries env secrets).2 with e | re
  · simp only [he] at h
    exact resolveEntries_no_hook secrets env ev h
  · simp only [he] at h
    rw [List.mem_append] at h
    rcases h with h | h
    · exact resolveEntries_no_hook secrets env ev h
    · exact injectLoop_no_hook re secrets actions ev h

theorem taskBody_no_hook (ctx : TaskCtx) (t : Task) (ev : Event)
    (h : ev ∈ (taskBody ctx t).1) : isHook ev = false := by
  rw [taskBody] at h
  rcases hi : (injectResolvedEnvIntoActions t.actions (taskMergedEnv ctx t) ctx.secrets).2 with e | acts
  · simp only [hi] at h
    exact inject_no_hook _ _ _ ev h
  · have hmem : ev ∈ (injectResolvedEnvIntoActions t.actions (taskMergedEnv ctx t) ctx.secrets).1 ++
        [Event.runActions t.name acts] → isHook ev = false := by
      intro hm
      rw [List.mem_append] at hm
      rcases hm with hm | hm
      · exact inject_no_hook _ _ _ ev hm
      · simp at hm
        subst hm
        rfl
    rcases ho : ctx.oracle t.name acts with e | produced
    · simp only [hi, ho] at h
      exact hmem h
    · rcases hr : relativeTo produced ctx.backupPath with e | rel <;>
        simp only [hi, ho, hr] at h <;>
        exact hmem h

theorem isHookNamed_false_of_not_hook (n : String) (ev : Event) (h : isHook ev = false) :
    isHookNamed n ev = false := by
  cases ev <;> simp_all [isHook, isHookNamed]

theorem hook_suffix_ne {s₁ s₂ : String} (a b c d : String)
    (hlen : ¬ s₁.data = s₂.data) :
    (a ++ b ++ c ++ d ++ s₁) ≠ (a ++ b ++ c ++ d ++ s₂) := by
  intro hcon
  apply hlen
  have hd := congrArg String.data hcon
  simp only [String.data_append] at hd
  exact List.append_cancel_left hd

/-- C8 counterexample context: a pipeline invoker that fails. -/
def c8Ctx : TaskCtx :=
  ⟨fun _ _ => .error "boom", "d", "/backups/.partial", "/backups/.partial", none, [], []⟩

/-- C8 counterexample task: `stopOnFail = true`. -/
def c8Task : Task := ⟨"t", [], [[("noop", Value.vnone)]], true⟩

/-- C8 counterexample: for a failing task with `stopOnFail = true` the
`:error` hook fires but the `:after` hook does NOT fire — the trace of the
task loop ends at the error hook because `raise e` precedes the after-hook
line. -/
theorem after_hook_skipped_on_stop_on_fail :
    (runTasksLoop c8Ctx [] [c8Task]).1 =
      [Event.hook "backup:tasks:d:task:t:before" ["/backups/.partial", "d", "t"],
       Event.runActions "t" [[("noop", Value.vnone)]],
       Event.hook "backup:tasks:d:task:t:error" ["boom", "/backups/.partial", "d", "t"]] ∧
    (runTasksLoop c8Ctx [] [c8Task]).1.any (isHookNamed "backup:tasks:d:task:t:after") = false ∧
    (runTasksLoop c8Ctx [] [c8Task]).2 = .error "boom" :=
  ⟨rfl, rfl, rfl⟩

/-- C8 (amended): the `:after` hook fires after a task exactly when the
task succeeded or failed with `stopOnFail = false` (in the failing case
the `:error` hook fires first); when a task with `stopOnFail = true`
fails, the `:error` hook fires and the `:after` hook does NOT fire, the
exception propagating instead. -/
theorem task_after_hook_cases (ctx : TaskCtx) (results : List (String × String)) (t : Task) :
    (∀ rel, (taskBody ctx t).2 = .ok rel →
      taskStep ctx results t =
        (Event.hook ("backup:tasks:" ++ ctx.tasksName ++ ":task:" ++ t.name ++ ":before")
            [ctx.finalBackupPath, ctx.tasksName, t.name] :: (taskBody ctx t).1 ++
          [Event.hook ("backup:tasks:" ++ ctx.tasksName ++ ":task:" ++ t.name ++ ":after")
            [ctx.backupPath, ctx.tasksName, t.name]],
         .ok (pySet results t.name rel))) ∧
    (∀ e, (taskBody ctx t).2 = .error e → t.stop_on_fail = false →
      taskStep ctx results t =
        (Event.hook ("backup:tasks:" ++ ctx.tasksName ++ ":task:" ++ t.name ++ ":before")
            [ctx.finalBackupPath, ctx.tasksName, t.name] :: (taskBody ctx t).1 ++
          [Event.hook ("backup:tasks:" ++ ctx.tasksName ++ ":task:" ++ t.name ++ ":error")
            [e, ctx.backupPath, ctx.tasksName, t.name],
           Event.hook ("backup:tasks:" ++ ctx.tasksName ++ ":task:" ++ t.name ++ ":after")
            [ctx.backupPath, ctx.tasksName, t.name]],
         .ok results)) ∧
    (∀ e, (taskBody ctx t).2 = .error e → t.stop_on_fail = true →
      taskStep ctx results t =
        (Event.hook ("backup:tasks:" ++ ctx.tasksName ++ ":task:" ++ t.name ++ ":before")
            [ctx.finalBackupPath, ctx.tasksName, t.name] :: (taskBody ctx t).1 ++
          [Event.hook ("backup:tasks:" ++ ctx.tasksName ++ ":task:" ++ t.name ++ ":error")
            [e, ctx.backupPath, ctx.tasksName, t.name]],
         .error e) ∧
      (taskStep ctx results t).1.any
        (isHookNamed ("backup:tasks:" ++ ctx.tasksName ++ ":task:" ++ t.name ++ ":after")) = false) := by
  refine ⟨?_, ?_, ?_⟩
  · intro rel hok
    simp only [taskStep, hok]
  · intro e herr hsof
    simp only [taskStep, herr, hsof, Bool.false_eq_true, if_false]
  · intro e herr hsof
    have hb : ("backup:tasks:" ++ ctx.tasksName ++ ":task:" ++ t.name ++ ":before") ≠
        ("backup:tasks:" ++ ctx.tasksName ++ ":task:" ++ t.name ++ ":after") :=
      hook_suffix_ne "backup:tasks:" ctx.tasksName ":task:" t.name (by decide)
    have he : ("backup:tasks:" ++ ctx.tasksName ++ ":task:" ++ t.name ++ ":error") ≠
        ("backup:tasks:" ++ ctx.tasksName ++ ":task:" ++ t.name ++ ":after") :=
      hook_suffix_ne "backup:tasks:" ctx.tasksName ":task:" t.name (by decide)
    have hstep : taskStep ctx results t =
        (Event.hook ("backup:tasks:" ++ ctx.tasksName ++ ":task:" ++ t.name ++ ":before")
            [ctx.finalBackupPath, ctx.tasksName, t.name] :: (taskBody ctx t).1 ++
          [Event.hook ("backup:tasks:" ++ ctx.tasksName ++ ":task:" ++ t.name ++ ":error")
            [e, ctx.backupPath, ctx.tasksName, t.name]],
         .error e) := by
      simp only [taskStep, herr, hsof, if_true]
    refine ⟨hstep, ?_⟩
    rw [hstep]
    rw [List.any_eq_false]
    intro ev hev
    simp only [List.cons_append, List.mem_cons, List.mem_append, List.mem_singleton,
      List.not_mem_nil, or_false] at hev
    rcases hev with hev | hev | hev
    · subst hev
      simp [isHookNamed, beq_eq_false_iff_ne.mpr hb]
    · simp [isHookNamed_false_of_not_hook
        ("backup:tasks:" ++ ctx.tasksName ++ ":task:" ++ t.name ++ ":after") ev
        (taskBody_no_hook ctx t ev hev)]
    · subst hev
      simp [isHookNamed, beq_eq_false_iff_ne.mpr he]

/-- Witness for C8 (amended): a failing task with `stopOnFail = false`
still fires the `:error` hook and then the `:after` hook. -/
theorem task_after_hook_cases_witness :
    taskStep ⟨fun _ _ => .error "boom", "d", "/b", "/b", none, [], []⟩ []
        ⟨"t", [], [[("noop", Value.vnone)]], false⟩ =
      (Event.hook ("backup:tasks:" ++ "d" ++ ":task:" ++ "t" ++ ":before") ["/b", "d", "t"] ::
        (taskBody ⟨fun _ _ => .error "boom", "d", "/b", "/b", none, [], []⟩
          ⟨"t", [], [[("noop", Value.vnone)]], false⟩).1 ++
        [Event.hook ("backup:tasks:" ++ "d" ++ ":task:" ++ "t" ++ ":error") ["boom", "/b", "d", "t"],
         Event.hook ("backup:tasks:" ++ "d" ++ ":task:" ++ "t" ++ ":after") ["/b", "d", "t"]],
       .ok []) :=
  (task_after_hook_cases ⟨fun _ _ => .error "boom", "d", "/b", "/b", none, [], []⟩ []
    ⟨"t", [], [[("noop", Value.vnone)]], false⟩).2.1 "boom" (by rfl) (by rfl)

/-! ### C9: the manifest assumes every task has a result -/

theorem manifestTaskEntries_ok_iff (tres : List (String × String)) (ts : List Task) :
    (∃ l, manifestTaskEntries tres ts = .ok l) ↔
      ∀ t ∈ ts, (pyGet tres t.name).isSome = true := by
  induction ts with
  | nil => simp [manifestTaskEntries]
  | cons t rest ih =>
    constructor
    · rintro ⟨l, hl⟩
      rw [manifestTaskEntries] at hl
      rcases hg : pyGet tres t.name with _ | r
      · rw [hg] at hl
        simp at hl
      · rw [hg] at hl
        intro t' ht'
        rcases List.mem_cons.mp ht' with h | h
        · subst h
          simp [hg]
        · rcases hrest : manifestTaskEntries tres rest with e | l'
          · rw [hrest] at hl
            simp at hl
          · exact (ih.mp ⟨l', hrest⟩) t' h
    · intro hall
      rcases hg : pyGet tres t.name with _ | r
      · have := hall t (by simp)
        rw [hg] at this
        simp at this
      · obtain ⟨l', hl'⟩ := ih.mpr (fun t' ht' => hall t' (by simp [ht']))
        exact ⟨_, by rw [manifestTaskEntries, hg, hl']⟩

theorem manifestDefEntries_ok_iff (res : Results) :
    (∃ l, manifestDefEntries res = .ok l) ↔
      ∀ p ∈ res, ∃ l', manifestTaskEntries p.2.2 p.2.1.tasks = .ok l' := by
  induction res with
  | nil => simp [manifestDefEntries]
  | cons p rest ih =>
    obtain ⟨fn, td, tres⟩ := p
    constructor
    · rintro ⟨l, hl⟩
      rw [manifestDefEntries] at hl
      rcases ht : manifestTaskEntries tres td.tasks with e | ts
      · rw [ht] at hl
        simp at hl
      · rw [ht] at hl
        intro p' hp'
        rcases List.mem_cons.mp hp' with h | h
        · subst h
          exact ⟨ts, ht⟩
        · rcases hrest : manifestDefEntries rest with e | l'
          · rw [hrest] at hl
            simp at hl
          · exact (ih.mp ⟨l', hrest⟩) p' h
    · intro hall
      obtain ⟨ts, hts⟩ := hall (fn, td, tres) (by simp)
      obtain ⟨l', hl'⟩ := ih.mpr (fun p' hp' => hall p' (by simp [hp']))
      exact ⟨_, by rw [manifestDefEntries]; rw [hts, hl']⟩

/-- C9: manifest construction succeeds exactly when every task of every
processed definition has an entry in the per-definition results mapping;
and a task with `stopOnFail = false` whose body failed leaves no entry
behind (the task loop returns with the results dict unchanged), after
which the unguarded by-name lookup during manifest construction raises
`KeyError` — nothing in this layer guards that gap. -/
theorem manifest_requires_every_task_result :
    (∀ (now : DT) (res : Results),
      (∃ m, createBackupManifest now res = .ok m) ↔
        ∀ p ∈ res, ∀ t ∈ p.2.1.tasks, (pyGet p.2.2 t.name).isSome = true) ∧
    (∀ (ctx : TaskCtx) (t : Task) (e : String),
      t.stop_on_fail = false → (taskBody ctx t).2 = .error e →
      (taskStep ctx [] t).2 = .ok [] ∧
      ∀ (fn : String) (td : Tasks) (now : DT), t ∈ td.tasks →
        createBackupManifest now [(fn, (td, []))] = .error "KeyError") := by
  constructor
  · intro now res
    rw [show (∃ m, createBackupManifest now res = .ok m) ↔ ∃ l, manifestDefEntries res = .ok l by
      constructor
      · rintro ⟨m, hm⟩
        rw [createBackupManifest] at hm
        rcases hD : manifestDefEntries res with e | l
        · rw [hD] at hm
          simp at hm
        · exact ⟨l, rfl⟩
      · rintro ⟨l, hl⟩
        exact ⟨_, by rw [createBackupManifest, hl]⟩]
    rw [manifestDefEntries_ok_iff]
    constructor
    · intro hall p hp
      exact ((manifestTaskEntries_ok_iff p.2.2 p.2.1.tasks).mp (hall p hp))
    · intro hall p hp
      exact (manifestTaskEntries_ok_iff p.2.2 p.2.1.tasks).mpr (hall p hp)
  · intro ctx t e hsof herr
    constructor
    · simp only [taskStep, herr, hsof, Bool.false_eq_true, if_false]
    · intro fn td now hmem
      rcases htd : td.tasks with _ | ⟨t0, ts0⟩
      · rw [htd] at hmem
        simp at hmem
      · rw [createBackupManifest, manifestDefEntries, htd, manifestTaskEntries]
        rfl

/-- Witness for C9: a concrete failing `stopOnFail = false` task leaves
no result entry and the manifest build over it raises `KeyError`. -/
theorem manifest_requires_every_task_result_witness :
    (taskStep ⟨fun _ _ => .error "boom", "d", "/b", "/b", none, [], []⟩ []
        ⟨"t", [], [[("noop", Value.vnone)]], false⟩).2 = .ok [] ∧
    createBackupManifest ⟨2024, 1, 2, 3, 4⟩
        [("a.yaml", (⟨"d", "a.yaml", [], none, [⟨"t", [], [[("noop", Value.vnone)]], false⟩]⟩, []))]
      = .error "KeyError" := by
  have h := (manifest_requires_every_task_result.2
    ⟨fun _ _ => .error "boom", "d", "/b", "/b", none, [], []⟩
    ⟨"t", [], [[("noop", Value.vnone)]], false⟩ "boom" (by rfl) (by rfl))
  exact ⟨h.1, h.2 "a.yaml" ⟨"d", "a.yaml", [], none, [⟨"t", [], [[("noop", Value.vnone)]], false⟩]⟩
    ⟨2024, 1, 2, 3, 4⟩ (by simp)⟩

/-! ### Lemmas about the orchestrator loops -/

theorem contains_iff_mem (l : List String) (a : String) : l.contains a = true ↔ a ∈ l := by
  induction l with
  | nil => simp [List.contains, List.elem]
  | cons b bs ih =>
    by_cases hab : (a == b) = true
    · have : a = b := by simpa using hab
      subst this
      simp [List.contains, List.elem]
    · rw [show ((b :: bs).contains a) = bs.contains a by simp [List.contains, List.elem, hab]]
      rw [ih]
      constructor
      · intro h
        exact List.mem_cons_of_mem b h
      · intro h
        rcases List.mem_cons.mp h with h | h
        · exact absurd (by simp [h] : (a == b) = true) hab
        · exact h

theorem runTasksLoop_append_ok (ctx : TaskCtx) :
    ∀ (l₁ : List Task) (l₂ : List Task) (res res₁ : List (String × String)),
      (runTasksLoop ctx res l₁).2 = .ok res₁ →
      (runTasksLoop ctx res (l₁ ++ l₂)).2 = (runTasksLoop ctx res₁ l₂).2
  | [], l₂, res, res₁, h => by
    rw [show res₁ = res from by simpa [runTasksLoop] using h.symm]
    rfl
  | t :: rest, l₂, res, res₁, h => by
    rw [runTasksLoop] at h
    rcases hs : (taskStep ctx res t).2 with e | res2
    · rw [hs] at h
      simp at h
    · rw [hs] at h
      rw [List.cons_append, runTasksLoop, hs]
      simp only
      exact runTasksLoop_append_ok ctx rest l₂ res2 res₁ h

theorem runTasks_current (oracle : String → List (List (String × Value)) → Except String String)
    (td : Tasks) (bp : String) (prev : Option String) (env : List (String × Value))
    (secrets : List SecretConfig) (fs : FS) :
    (runTasks oracle td bp prev env secrets fs).2.1.current = fs.current := by
  rcases hif : td.inside_folder with _ | f
  · simp [runTasks, hif]
  · by_cases hg : strStartsWith (pathJoin bp f) bp = true
    · simp [runTasks, hif, hg]
    · simp [runTasks, hif, hg]

theorem addDir_mono (dirs : List String) (p d : String) (h : d ∈ dirs) : d ∈ addDir dirs p := by
  by_cases hm : normalizePath p ∈ dirs
  · simpa [addDir, hm] using h
  · simp [addDir, hm]
    exact Or.inl h

theorem runTasks_dirs_mono (oracle : String → List (List (String × Value)) → Except String String)
    (td : Tasks) (bp : String) (prev : Option String) (env : List (String × Value))
    (secrets : List SecretConfig) (fs : FS) (d : String) (h : d ∈ fs.dirs) :
    d ∈ (runTasks oracle td bp prev env secrets fs).2.1.dirs := by
  rcases hif : td.inside_folder with _ | f
  · simpa [runTasks, hif] using h
  · by_cases hg : strStartsWith (pathJoin bp f) bp = true
    · simp only [runTasks, hif, hg, if_true]
      exact addDir_mono fs.dirs (pathJoin bp f) d h
    · simpa [runTasks, hif, hg] using h

theorem defStep_current (cfg : Cfg) (tmp : String) (prev : Option String)
    (genv : List (String × Value)) (fs : FS) (acc : Results) (f : String) :
    (defStep cfg tmp prev genv fs acc f).2.1.current = fs.current := by
  rcases hp : cfg.parse f with e | td
  · simp [defStep, hp]
  · rcases he : (resolveEntries (pyUpdate genv td.env) cfg.secrets).2 with e | te
    · simp [defStep, hp, he]
    · rcases hr : (runTasks cfg.oracle td tmp prev te cfg.secrets fs).2.2 with e | res
      · simp only [defStep, hp, he, hr]
        exact runTasks_current cfg.oracle td tmp prev te cfg.secrets fs
      · simp only [defStep, hp, he, hr]
        exact runTasks_current cfg.oracle td tmp prev te cfg.secrets fs

theorem defStep_dirs_mono (cfg : Cfg) (tmp : String) (prev : Option String)
    (genv : List (String × Value)) (fs : FS) (acc : Results) (f : String) (d : String)
    (h : d ∈ fs.dirs) : d ∈ (defStep cfg tmp prev genv fs acc f).2.1.dirs := by
  rcases hp : cfg.parse f with e | td
  · simpa [defStep, hp] using h
  · rcases he : (resolveEntries (pyUpdate genv td.env) cfg.secrets).2 with e | te
    · simpa [defStep, hp, he] using h
    · rcases hr : (runTasks cfg.oracle td tmp prev te cfg.secrets fs).2.2 with e | res
      · simp only [defStep, hp, he, hr]
        exact runTasks_dirs_mono cfg.oracle td tmp prev te cfg.secrets fs d h
      · simp only [defStep, hp, he, hr]
        exact runTasks_dirs_mono cfg.oracle td tmp prev te cfg.secrets fs d h

theorem defsLoop_current (cfg : Cfg) (tmp : String) (prev : Option String)
    (genv : List (String × Value)) :
    ∀ (files : List String) (fs : FS) (acc : Results),
      (defsLoop cfg tmp prev genv fs acc files).2.1.current = fs.current
  | [], fs, acc => rfl
  | f :: rest, fs, acc => by
    rcases hd : (defStep cfg tmp prev genv fs acc f).2.2 with e | acc2
    · simp only [defsLoop, hd]
      exact defStep_current cfg tmp prev genv fs acc f
    · simp only [defsLoop, hd]
      rw [defsLoop_current cfg tmp prev genv rest (defStep cfg tmp prev genv fs acc f).2.1 acc2]
      exact defStep_current cfg tmp prev genv fs acc f

theorem defsLoop_dirs_mono (cfg : Cfg) (tmp : String) (prev : Option String)
    (genv : List (String × Value)) :
    ∀ (files : List String) (fs : FS) (acc : Results) (d : String), d ∈ fs.dirs →
      d ∈ (defsLoop cfg tmp prev genv fs acc files).2.1.dirs
  | [], fs, acc, d, h => h
  | f :: rest, fs, acc, d, h => by
    rcases hd : (defStep cfg tmp prev genv fs acc f).2.2 with e | acc2
    · simp only [defsLoop, hd]
      exact defStep_dirs_mono cfg tmp prev genv fs acc f d h
    · simp only [defsLoop, hd]
      exact defsLoop_dirs_mono cfg tmp prev genv rest _ acc2 d
        (defStep_dirs_mono cfg tmp prev genv fs acc f d h)

theorem defsLoop_append_ok (cfg : Cfg) (tmp : String) (prev : Option String)
    (genv : List (String × Value)) :
    ∀ (l₁ l₂ : List String) (fs : FS) (acc acc₁ : Results),
      (defsLoop cfg tmp prev genv fs acc l₁).2.2 = .ok acc₁ →
      (defsLoop cfg tmp prev genv fs acc (l₁ ++ l₂)).2 =
        (defsLoop cfg tmp prev genv (defsLoop cfg tmp prev genv fs acc l₁).2.1 acc₁ l₂).2
  | [], l₂, fs, acc, acc₁, h => by
    rw [show acc₁ = acc from by simpa [defsLoop] using h.symm]
    rfl
  | f :: rest, l₂, fs, acc, acc₁, h => by
    rw [defsLoop] at h
    rcases hd : (defStep cfg tmp prev genv fs acc f).2.2 with e | acc2
    · rw [hd] at h
      simp at h
    · rw [hd] at h
      simp only at h
      rw [List.cons_append, defsLoop, hd]
      simp only [defsLoop, hd]
      exact defsLoop_append_ok cfg tmp prev genv rest l₂ _ acc2 acc₁ h

theorem addDir_self_mem (dirs : List String) (p : String) :
    normalizePath p ∈ addDir dirs p := by
  by_cases hm : normalizePath p ∈ dirs
  · simp [addDir, hm]
  · simp [addDir, hm]

theorem defStep_error_of_runTasks (cfg : Cfg) (tmp : String) (prev : Option String)
    (genv : List (String × Value)) (fs : FS) (acc : Results) (f : String) (td : Tasks)
    (te : List (String × Value)) (e : String)
    (hp : cfg.parse f = .ok td)
    (he : (resolveEntries (pyUpdate genv td.env) cfg.secrets).2 = .ok te)
    (hr : (runTasks cfg.oracle td tmp prev te cfg.secrets fs).2.2 = .error e) :
    (defStep cfg tmp prev genv fs acc f).2.2 = .error (wrapFailMsg td.name) := by
  simp only [defStep, hp, he, hr]

theorem doBackup_defsLoop_error (cfg : Cfg) (fs : FS) (genv : List (String × Value))
    (files : List String) (e : String)
    (h1 : (resolveEntries cfg.env cfg.secrets).2 = .ok genv)
    (h2 : getTasksDefinitions cfg = .ok files)
    (hL : (defsLoop cfg (doBackupTmp cfg) fs.current genv (doBackupFs1 cfg fs) [] files).2.2
      = .error e) :
    (doBackup cfg fs).2.2 = .error e ∧
    (doBackup cfg fs).2.1
      = (defsLoop cfg (doBackupTmp cfg) fs.current genv (doBackupFs1 cfg fs) [] files).2.1 := by
  constructor <;> simp only [doBackup, h1, h2, hL]

theorem doBackup_error_current (cfg : Cfg) (fs : FS) (e : String)
    (hE : (doBackup cfg fs).2.2 = .error e) :
    (doBackup cfg fs).2.1.current = fs.current := by
  rcases h1 : (resolveEntries cfg.env cfg.secrets).2 with e1 | genv
  · simp [doBackup, h1]
  · rcases h2 : getTasksDefinitions cfg with e2 | files
    · simp [doBackup, h1, h2, doBackupFs1]
    · rcases hL : (defsLoop cfg (doBackupTmp cfg) fs.current genv (doBackupFs1 cfg fs) [] files).2.2
        with e3 | results
      · simp only [doBackup, h1, h2, hL]
        rw [defsLoop_current]
        rfl
      · rcases hM : createBackupManifest cfg.now results with e4 | m
        · simp only [doBackup, h1, h2, hL, hM]
          rw [defsLoop_current]
          rfl
        · simp only [doBackup, h1, h2, hL, hM] at hE
          exact absurd hE (by simp)

theorem mainBackup_cleanup (cfg : Cfg) (fs : FS) (e : String)
    (hE : (doBackup cfg fs).2.2 = .error e) :
    (mainBackup cfg fs).2.2.isSuccess = false ∧
    (mainBackup cfg fs).2.1.current = (doBackup cfg fs).2.1.current ∧
    (doBackupTmp cfg) ∉ (mainBackup cfg fs).2.1.dirs ∧
    ((doBackupTmp cfg) ∈ (doBackup cfg fs).2.1.dirs → (mainBackup cfg fs).2.2 = .exitFail) := by
  by_cases hm : (doBackupTmp cfg) ∈ (doBackup cfg fs).2.1.dirs
  · have hc : (doBackup cfg fs).2.1.dirs.contains (doBackupTmp cfg) = true :=
      (contains_iff_mem _ _).mpr hm
    have hmain : mainBackup cfg fs =
        ((doBackup cfg fs).1 ++ [Event.hook "backup:error" [doBackupTmp cfg, e, ""]] ++
           [Event.rmtree (doBackupTmp cfg)],
         { (doBackup cfg fs).2.1 with
            dirs := rmtreeDirs (doBackup cfg fs).2.1.dirs (doBackupTmp cfg) },
         .exitFail) := by
      simp only [mainBackup, hE, hc, eq_self_iff_true, if_true]
    rw [hmain]
    refine ⟨rfl, rfl, ?_, fun _ => rfl⟩
    intro hcon
    rw [show ({ (doBackup cfg fs).2.1 with
        dirs := rmtreeDirs (doBackup cfg fs).2.1.dirs (doBackupTmp cfg) } : FS).dirs
      = rmtreeDirs (doBackup cfg fs).2.1.dirs (doBackupTmp cfg) from rfl, rmtreeDirs] at hcon
    have hpred := (List.mem_filter.mp hcon).2
    simp at hpred
  · have hc : (doBackup cfg fs).2.1.dirs.contains (doBackupTmp cfg) = false := by
      cases hcb : (doBackup cfg fs).2.1.dirs.contains (doBackupTmp cfg)
      · rfl
      · exact absurd ((contains_iff_mem _ _).mp hcb) hm
    have hmain : mainBackup cfg fs =
        ((doBackup cfg fs).1 ++ [Event.hook "backup:error" [doBackupTmp cfg, e, ""]],
         (doBackup cfg fs).2.1, .crash "FileNotFoundError") := by
      simp only [mainBackup, hE, hc, Bool.false_eq_true, if_false]
    rw [hmain]
    exact ⟨rfl, rfl, hm, fun hcon => absurd hcon hm⟩

/-! ### C1: a `stopOnFail` failure fails the run and cleans up -/

/-- C1: a failing task whose `stopOnFail` is set aborts the task loop
with that exception (first conjunct, at the point where the task is
reached), and any definition whose tasks raise makes the whole run
terminate with the nonzero `sys.exit(1)` outcome, with the `.partial`
working directory removed and the `current` alias exactly as it was
before the run (second conjunct). -/
theorem stop_on_fail_aborts_run_with_cleanup :
    (∀ (ctx : TaskCtx) (res res₁ : List (String × String)) (tpre tpost : List Task)
       (t : Task) (e : String),
      (runTasksLoop ctx res tpre).2 = .ok res₁ →
      t.stop_on_fail = true →
      (taskBody ctx t).2 = .error e →
      (runTasksLoop ctx res (tpre ++ t :: tpost)).2 = .error e) ∧
    (∀ (cfg : Cfg) (fs : FS) (genv : List (String × Value)) (pre rest : List String)
       (f : String) (acc₁ : Results) (td : Tasks) (te : List (String × Value)) (e : String),
      normalizePath (doBackupTmp cfg) = doBackupTmp cfg →
      (resolveEntries cfg.env cfg.secrets).2 = .ok genv →
      getTasksDefinitions cfg = .ok (pre ++ f :: rest) →
      (defsLoop cfg (doBackupTmp cfg) fs.current genv (doBackupFs1 cfg fs) [] pre).2.2 = .ok acc₁ →
      cfg.parse f = .ok td →
      (resolveEntries (pyUpdate genv td.env) cfg.secrets).2 = .ok te →
      (runTasks cfg.oracle td (doBackupTmp cfg) fs.current te cfg.secrets
        (defsLoop cfg (doBackupTmp cfg) fs.current genv (doBackupFs1 cfg fs) [] pre).2.1).2.2
        = .error e →
      (mainBackup cfg fs).2.2 = .exitFail ∧
      (mainBackup cfg fs).2.1.current = fs.current ∧
      (doBackupTmp cfg) ∉ (mainBackup cfg fs).2.1.dirs) := by
  constructor
  · intro ctx res res₁ tpre tpost t e hpre hsof herr
    rw [runTasksLoop_append_ok ctx tpre (t :: tpost) res res₁ hpre]
    have hstep : (taskStep ctx res₁ t).2 = .error e := by
      simp only [taskStep, herr, hsof, if_true]
    rw [runTasksLoop]
    simp only [hstep]
  · intro cfg fs genv pre rest f acc₁ td te e hnorm h1 h2 hpre hp he hr
    have hds : (defStep cfg (doBackupTmp cfg) fs.current genv
        (defsLoop cfg (doBackupTmp cfg) fs.current genv (doBackupFs1 cfg fs) [] pre).2.1 acc₁ f).2.2
        = .error (wrapFailMsg td.name) :=
      defStep_error_of_runTasks cfg (doBackupTmp cfg) fs.current genv _ acc₁ f td te e hp he hr
    have hL : (defsLoop cfg (doBackupTmp cfg) fs.current genv (doBackupFs1 cfg fs) []
        (pre ++ f :: rest)).2.2 = .error (wrapFailMsg td.name) := by
      rw [defsLoop_append_ok cfg (doBackupTmp cfg) fs.current genv pre (f :: rest)
        (doBackupFs1 cfg fs) [] acc₁ hpre]
      rw [defsLoop]
      simp only [hds]
    have hdb := doBackup_defsLoop_error cfg fs genv (pre ++ f :: rest) _ h1 h2 hL
    have hclean := mainBackup_cleanup cfg fs _ hdb.1
    have hmem : (doBackupTmp cfg) ∈ (doBackup cfg fs).2.1.dirs := by
      rw [hdb.2]
      apply defsLoop_dirs_mono
      rw [show (doBackupFs1 cfg fs).dirs = addDir fs.dirs (doBackupTmp cfg) from rfl]
      have hself := addDir_self_mem fs.dirs (doBackupTmp cfg)
      rwa [hnorm] at hself
    refine ⟨hclean.2.2.2 hmem, ?_, hclean.2.2.1⟩
    rw [hclean.2.1, doBackup_error_current cfg fs _ hdb.1]

/-- The configuration of the concrete `stopOnFail` failure run: one
definition file with one task whose pipeline fails and whose `stopOnFail`
is set. -/
def c1Cfg : Cfg where
  backupsFolder := "/backups"
  configFolder := "/etc/mdbackup"
  env := [("A", Value.vstr "1")]
  secrets := []
  tasksDirExists := true
  taskFiles := ["a.yaml"]
  parse := fun f =>
    if f == "/etc/mdbackup/tasks/a.yaml" then
      .ok ⟨"d", "a.yaml", [], none, [⟨"t", [], [[("noop", Value.vnone)]], true⟩]⟩
    else .error "KeyError"
  oracle := fun _ _ => .error "boom"
  now := ⟨2024, 1, 2, 3, 4⟩

/-- The pre-run filesystem of the concrete failure run: one sealed backup
that `current` points at. -/
def c1Fs : FS := ⟨["/backups/2020-01-01T00:00"], some "/backups/2020-01-01T00:00"⟩

/-- Witness for C1: both conjuncts applied at the concrete failing run —
the task loop aborts, the run exits nonzero, `.partial` is gone and
`current` still points at the old backup. -/
theorem stop_on_fail_aborts_run_with_cleanup_witness :
    (runTasksLoop ⟨c1Cfg.oracle, "d", doBackupTmp c1Cfg, doBackupTmp c1Cfg, c1Fs.current,
        [("A", Value.vstr "1")], []⟩ [] ([] ++ ⟨"t", [], [[("noop", Value.vnone)]], true⟩ :: [])).2
      = .error "boom" ∧
    (mainBackup c1Cfg c1Fs).2.2 = .exitFail ∧
    (mainBackup c1Cfg c1Fs).2.1.current = c1Fs.current ∧
    (doBackupTmp c1Cfg) ∉ (mainBackup c1Cfg c1Fs).2.1.dirs := by
  refine ⟨?_, ?_⟩
  · exact stop_on_fail_aborts_run_with_cleanup.1
      ⟨c1Cfg.oracle, "d", doBackupTmp c1Cfg, doBackupTmp c1Cfg, c1Fs.current,
        [("A", Value.vstr "1")], []⟩ [] [] [] [] ⟨"t", [], [[("noop", Value.vnone)]], true⟩
      "boom" (by rfl) (by rfl) (by rfl)
  · exact stop_on_fail_aborts_run_with_cleanup.2 c1Cfg c1Fs [("A", Value.vstr "1")] [] []
      "/etc/mdbackup/tasks/a.yaml" [] ⟨"d", "a.yaml", [], none, [⟨"t", [], [[("noop", Value.vnone)]], true⟩]⟩
      [("A", Value.vstr "1")] "boom" (by rfl) (by rfl) (by rfl) (by rfl) (by rfl) (by rfl) (by rfl)

/-! ### C4: a parse error aborts the run when the file is reached -/

/-- C4 (amended): a definition file that fails to parse aborts the run at
the moment it is reached.  First conjunct: the definition loop stops at
the unparseable file with no further events — in particular no task of
that definition or of any later definition executes, and the filesystem
is untouched from that point.  Second conjunct: the whole run then
terminates with the nonzero `sys.exit(1)` outcome and `current`
unchanged.  (Tasks of definitions ordered before the unparseable file
have already executed by then — see the counterexample.) -/
theorem parse_error_aborts_when_reached :
    (∀ (cfg : Cfg) (tmp : String) (prev : Option String) (genv : List (String × Value))
       (fs : FS) (acc : Results) (f : String) (rest : List String) (e : String),
      cfg.parse f = .error e →
      defsLoop cfg tmp prev genv fs acc (f :: rest) = ([], fs, .error e)) ∧
    (∀ (cfg : Cfg) (fs : FS) (genv : List (String × Value)) (pre rest : List String)
       (f : String) (acc₁ : Results) (e : String),
      normalizePath (doBackupTmp cfg) = doBackupTmp cfg →
      (resolveEntries cfg.env cfg.secrets).2 = .ok genv →
      getTasksDefinitions cfg = .ok (pre ++ f :: rest) →
      (defsLoop cfg (doBackupTmp cfg) fs.current genv (doBackupFs1 cfg fs) [] pre).2.2 = .ok acc₁ →
      cfg.parse f = .error e →
      (mainBackup cfg fs).2.2 = .exitFail ∧
      (mainBackup cfg fs).2.1.current = fs.current) := by
  have hstep : ∀ (cfg : Cfg) (tmp : String) (prev : Option String) (genv : List (String × Value))
      (fs : FS) (acc : Results) (f : String) (rest : List String) (e : String),
      cfg.parse f = .error e →
      defsLoop cfg tmp prev genv fs acc (f :: rest) = ([], fs, .error e) := by
    intro cfg tmp prev genv fs acc f rest e hp
    have hds : defStep cfg tmp prev genv fs acc f = ([], fs, .error e) := by
      simp only [defStep, hp]
    rw [defsLoop]
    simp only [hds]
  refine ⟨hstep, ?_⟩
  intro cfg fs genv pre rest f acc₁ e hnorm h1 h2 hpre hp
  have hL : (defsLoop cfg (doBackupTmp cfg) fs.current genv (doBackupFs1 cfg fs) []
      (pre ++ f :: rest)).2.2 = .error e := by
    rw [defsLoop_append_ok cfg (doBackupTmp cfg) fs.current genv pre (f :: rest)
      (doBackupFs1 cfg fs) [] acc₁ hpre]
    rw [hstep cfg (doBackupTmp cfg) fs.current genv _ acc₁ f rest e hp]
  have hdb := doBackup_defsLoop_error cfg fs genv (pre ++ f :: rest) _ h1 h2 hL
  have hclean := mainBackup_cleanup cfg fs _ hdb.1
  have hmem : (doBackupTmp cfg) ∈ (doBackup cfg fs).2.1.dirs := by
    rw [hdb.2]
    apply defsLoop_dirs_mono
    rw [show (doBackupFs1 cfg fs).dirs = addDir fs.dirs (doBackupTmp cfg) from rfl]
    have hself := addDir_self_mem fs.dirs (doBackupTmp cfg)
    rwa [hnorm] at hself
  refine ⟨hclean.2.2.2 hmem, ?_⟩
  rw [hclean.2.1, doBackup_error_current cfg fs _ hdb.1]

/-- The configuration of the interleaved-parsing run: two definition
files; `a.yaml` parses and its task succeeds, `b.yaml` cannot be
parsed. -/
def c4Cfg : Cfg where
  backupsFolder := "/backups"
  configFolder := "/etc/mdbackup"
  env := []
  secrets := []
  tasksDirExists := true
  taskFiles := ["b.yaml", "a.yaml"]
  parse := fun f =>
    if f == "/etc/mdbackup/tasks/a.yaml" then
      .ok ⟨"d1", "a.yaml", [], none, [⟨"t1", [], [[("noop", Value.vnone)]], true⟩]⟩
    else .error "KeyError"
  oracle := fun _ _ => .ok "/backups/.partial/out"
  now := ⟨2024, 1, 2, 3, 4⟩

/-- C4 counterexample: the claim says the run aborts BEFORE any task of
any definition executes; in fact the run over `c4Cfg` fails (nonzero
outcome, because `b.yaml` cannot be parsed), yet the pipeline of the
task of `a.yaml` — the lexicographically earlier file — has executed. -/
theorem task_executed_before_parse_error :
    (mainBackup c4Cfg ⟨[], none⟩).2.2 = .exitFail ∧
    (mainBackup c4Cfg ⟨[], none⟩).1.any isRunActions = true := ⟨rfl, rfl⟩

/-- Witness for C4 (amended): the run over `c4Cfg` reaches `b.yaml` after
`a.yaml`, aborts with the nonzero outcome and leaves `current`
unchanged. -/
theorem parse_error_aborts_when_reached_witness :
    (mainBackup c4Cfg ⟨[], none⟩).2.2 = .exitFail ∧
    (mainBackup c4Cfg ⟨[], none⟩).2.1.current = (⟨[], none⟩ : FS).current :=
  parse_error_aborts_when_reached.2 c4Cfg ⟨[], none⟩ [] ["/etc/mdbackup/tasks/a.yaml"] []
    "/etc/mdbackup/tasks/b.yaml"
    [("a.yaml", (⟨"d1", "a.yaml", [], none, [⟨"t1", [], [[("noop", Value.vnone)]], true⟩]⟩,
      [("t1", "out")]))]
    "KeyError" (by rfl) (by rfl) (by rfl) (by rfl) (by rfl)

/-! ### C2: a fully successful run seals atomically -/

theorem keys_pySet {α : Type} : ∀ (d : List (String × α)) (k : String) (v : α),
    (pySet d k v).map Prod.fst = keysInsert (d.map Prod.fst) k
  | [], k, v => by simp [pySet, keysInsert, List.contains, List.elem]
  | (k0, v0) :: rest, k, v => by
    by_cases h0 : (k0 == k) = true
    · have hk : k0 = k := by simpa using h0
      subst hk
      rw [show pySet ((k0, v0) :: rest) k0 v = (k0, v) :: rest from by simp [pySet]]
      have hc : ((k0 :: rest.map Prod.fst).contains k0) = true := by
        simp [List.contains, List.elem]
      simp [keysInsert, hc]
    · have hne : k0 ≠ k := by
        intro hcon
        subst hcon
        simp at h0
      have hne2 : (k == k0) = false := beq_eq_false_iff_ne.mpr (fun hh => hne hh.symm)
      rw [show pySet ((k0, v0) :: rest) k v = (k0, v0) :: pySet rest k v from by simp [pySet, h0]]
      rw [List.map_cons, List.map_cons, keys_pySet rest k v]
      unfold keysInsert
      rw [show ((k0 :: rest.map Prod.fst).contains k) = ((rest.map Prod.fst).contains k) from by
        simp [List.contains, List.elem, hne2]]
      by_cases hc2 : ((rest.map Prod.fst).contains k) = true
      · rw [if_pos hc2, if_pos hc2]
      · rw [if_neg hc2, if_neg hc2]
        rw [List.cons_append]

theorem defStep_ok_inv (cfg : Cfg) (tmp : String) (prev : Option String)
    (genv : List (String × Value)) (fs : FS) (acc : Results) (f : String) (acc2 : Results)
    (h : (defStep cfg tmp prev genv fs acc f).2.2 = .ok acc2) :
    ∃ td r, cfg.parse f = .ok td ∧ acc2 = pySet acc td.file_name (td, r) := by
  rcases hp : cfg.parse f with e | td
  · simp only [defStep, hp] at h
    exact absurd h (by simp)
  · rcases he : (resolveEntries (pyUpdate genv td.env) cfg.secrets).2 with e | te
    · simp only [defStep, hp, he] at h
      exact absurd h (by simp)
    · rcases hr : (runTasks cfg.oracle td tmp prev te cfg.secrets fs).2.2 with e | res
      · simp only [defStep, hp, he, hr] at h
        exact absurd h (by simp)
      · simp only [defStep, hp, he, hr] at h
        injection h with hh
        exact ⟨td, res, rfl, hh.symm⟩

theorem defsLoop_success_parses (cfg : Cfg) (tmp : String) (prev : Option String)
    (genv : List (String × Value)) :
    ∀ (files : List String) (fs : FS) (acc res : Results),
      (defsLoop cfg tmp prev genv fs acc files).2.2 = .ok res →
      ∃ tds, parseAll cfg files = .ok tds ∧
        res.map Prod.fst = pyKeysFold (acc.map Prod.fst) (tds.map Tasks.file_name)
  | [], fs, acc, res, h => by
    have hacc : acc = res := by simpa [defsLoop] using h
    subst hacc
    exact ⟨[], rfl, rfl⟩
  | f :: rest, fs, acc, res, h => by
    rcases hd : (defStep cfg tmp prev genv fs acc f).2.2 with e | acc2
    · simp only [defsLoop, hd] at h
      exact absurd h (by simp)
    · simp only [defsLoop, hd] at h
      obtain ⟨td, r, hp, hacc2⟩ := defStep_ok_inv cfg tmp prev genv fs acc f acc2 hd
      obtain ⟨tds, hparse, hkeys⟩ := defsLoop_success_parses cfg tmp prev genv rest _ acc2 res h
      refine ⟨td :: tds, ?_, ?_⟩
      · simp only [parseAll, hp, hparse]
      · rw [hkeys, hacc2, keys_pySet]
        rfl

theorem manifestDefEntries_keys : ∀ (res : Results) (entries : List (String × DefManifestEntry)),
    manifestDefEntries res = .ok entries → entries.map Prod.fst = res.map Prod.fst
  | [], entries, h => by
    simp only [manifestDefEntries] at h
    injection h with hh
    rw [← hh]
    rfl
  | (fn, td, tres) :: rest, entries, h => by
    rw [manifestDefEntries] at h
    rcases ht : manifestTaskEntries tres td.tasks with e | ts
    · rw [ht] at h
      simp at h
    · rw [ht] at h
      rcases hr : manifestDefEntries rest with e | l
      · rw [hr] at h
        simp at h
      · rw [hr] at h
        injection h with hh
        rw [← hh, List.map_cons, List.map_cons, manifestDefEntries_keys rest l hr]

theorem digitChar_mod10_isDigit (n : Nat) : (Nat.digitChar (n % 10)).isDigit = true := by
  have h : n % 10 < 10 := Nat.mod_lt _ (by norm_num)
  set m := n % 10 with hm
  interval_cases m <;> rfl

theorem isoMinutes_matches_pattern (t : DT) : isoMinutePattern (isoMinutes t) = true := by
  have hdata : (isoMinutes t).data =
      [Nat.digitChar (t.year / 1000 % 10), Nat.digitChar (t.year / 100 % 10),
       Nat.digitChar (t.year / 10 % 10), Nat.digitChar (t.year % 10), '-',
       Nat.digitChar (t.month / 10 % 10), Nat.digitChar (t.month % 10), '-',
       Nat.digitChar (t.day / 10 % 10), Nat.digitChar (t.day % 10), 'T',
       Nat.digitChar (t.hour / 10 % 10), Nat.digitChar (t.hour % 10), ':',
       Nat.digitChar (t.minute / 10 % 10), Nat.digitChar (t.minute % 10)] := rfl
  simp only [isoMinutePattern, hdata]
  simp [digitChar_mod10_isDigit]

/-- C2: when a run returns successfully, the new backup path is the
backups folder joined with the run timestamp, whose name matches the
ISO-8601-minute pattern; the `current` alias ends up pointing at it; and
the trace of the sealing stage is, in this order: the rename of
`.partial` to the new directory, the write of the manifest into the new
directory — with `version = 1` and exactly one entry per processed
definition keyed by its file identifier (Python-dict key semantics) —
and only then the `current` symlink swap, followed by the `backup:after`
hook. -/
theorem successful_run_seals_atomically (cfg : Cfg) (fs : FS) (p : String)
    (h : (doBackup cfg fs).2.2 = .ok p) :
    p = pathJoin cfg.backupsFolder (isoMinutes cfg.now) ∧
    isoMinutePattern (isoMinutes cfg.now) = true ∧
    (doBackup cfg fs).2.1.current = some p ∧
    ∃ pre files tds res m swap,
      getTasksDefinitions cfg = .ok files ∧
      parseAll cfg files = .ok tds ∧
      createBackupManifest cfg.now res = .ok m ∧
      m.version = 1 ∧
      m.tasksDefinitions.map Prod.fst = pyKeysFold [] (tds.map Tasks.file_name) ∧
      (swap = [Event.symlink p (pathJoin cfg.backupsFolder "current")] ∨
       swap = [Event.unlink (pathJoin cfg.backupsFolder "current"),
               Event.symlink p (pathJoin cfg.backupsFolder "current")]) ∧
      (doBackup cfg fs).1 = pre ++ [Event.renameDir (doBackupTmp cfg) p, Event.writeManifest p m]
        ++ swap ++ [Event.hook "backup:after" [p]] := by
  rcases h1 : (resolveEntries cfg.env cfg.secrets).2 with e1 | genv
  · simp only [doBackup, h1] at h
    exact absurd h (by simp)
  rcases h2 : getTasksDefinitions cfg with e2 | files
  · simp only [doBackup, h1, h2] at h
    exact absurd h (by simp)
  rcases hL : (defsLoop cfg (doBackupTmp cfg) fs.current genv (doBackupFs1 cfg fs) [] files).2.2
    with e3 | results
  · simp only [doBackup, h1, h2, hL] at h
    exact absurd h (by simp)
  rcases hM : createBackupManifest cfg.now results with e4 | m
  · simp only [doBackup, h1, h2, hL, hM] at h
    exact absurd h (by simp)
  have hp : p = generateBackupPath cfg.backupsFolder cfg.now := by
    simp only [doBackup, h1, h2, hL, hM] at h
    injection h with hh
    exact hh.symm
  subst hp
  obtain ⟨tds, hparse, hkeys⟩ := defsLoop_success_parses cfg (doBackupTmp cfg) fs.current genv
    files (doBackupFs1 cfg fs) [] results hL
  have hMS := hM
  rw [createBackupManifest] at hMS
  rcases hD : manifestDefEntries results with eD | entries
  · rw [hD] at hMS
    exact absurd hMS (by simp)
  rw [hD] at hMS
  injection hMS with hm2
  have hver : m.version = 1 := by
    have hcv := congrArg Manifest.version hm2
    simpa [MANIFEST_VERSION] using hcv.symm
  have htd : m.tasksDefinitions = entries := by
    have hct := congrArg Manifest.tasksDefinitions hm2
    simpa using hct.symm
  have hmkeys : m.tasksDefinitions.map Prod.fst = pyKeysFold [] (tds.map Tasks.file_name) := by
    rw [htd, manifestDefEntries_keys results entries hD, hkeys]
    rfl
  refine ⟨rfl, isoMinutes_matches_pattern cfg.now, ?_, ?_⟩
  · simp only [doBackup, h1, h2, hL, hM]
  · refine ⟨(resolveEntries cfg.env cfg.secrets).1 ++
      [Event.hook "backup:before" [doBackupTmp cfg], Event.mkdirP (doBackupTmp cfg),
       Event.chmod (doBackupTmp cfg)] ++
      (defsLoop cfg (doBackupTmp cfg) fs.current genv (doBackupFs1 cfg fs) [] files).1,
      files, tds, results, m, ?_⟩
    rcases hcur : (defsLoop cfg (doBackupTmp cfg) fs.current genv (doBackupFs1 cfg fs) []
        files).2.1.current with _ | c
    · refine ⟨[Event.symlink (generateBackupPath cfg.backupsFolder cfg.now)
        (pathJoin cfg.backupsFolder "current")], rfl, hparse, hM, hver, hmkeys, Or.inl rfl, ?_⟩
      simp only [doBackup, h1, h2, hL, hM, hcur]
    · refine ⟨[Event.unlink (pathJoin cfg.backupsFolder "current"),
        Event.symlink (generateBackupPath cfg.backupsFolder cfg.now)
          (pathJoin cfg.backupsFolder "current")], rfl, hparse, hM, hver, hmkeys, Or.inr rfl, ?_⟩
      simp only [doBackup, h1, h2, hL, hM, hcur]

/-- The configuration of the concrete fully successful run: one
definition file with one succeeding task. -/
def c2Cfg : Cfg where
  backupsFolder := "/backups"
  configFolder := "/etc/mdbackup"
  env := []
  secrets := []
  tasksDirExists := true
  taskFiles := ["a.yaml"]
  parse := fun f =>
    if f == "/etc/mdbackup/tasks/a.yaml" then
      .ok ⟨"d", "a.yaml", [], none, [⟨"t", [], [[("noop", Value.vnone)]], true⟩]⟩
    else .error "KeyError"
  oracle := fun _ _ => .ok "/backups/.partial/out"
  now := ⟨2024, 1, 2, 3, 4⟩

/-- Witness for C2: the concrete run succeeds and the sealing properties
hold at it. -/
theorem successful_run_seals_atomically_witness :
    (doBackup c2Cfg ⟨[], none⟩).2.2 = .ok "/backups/2024-01-02T03:04" ∧
    ("/backups/2024-01-02T03:04" = pathJoin c2Cfg.backupsFolder (isoMinutes c2Cfg.now) ∧
     isoMinutePattern (isoMinutes c2Cfg.now) = true ∧
     (doBackup c2Cfg ⟨[], none⟩).2.1.current = some "/backups/2024-01-02T03:04" ∧
     ∃ pre files tds res m swap,
       getTasksDefinitions c2Cfg = .ok files ∧
       parseAll c2Cfg files = .ok tds ∧
       createBackupManifest c2Cfg.now res = .ok m ∧
       m.version = 1 ∧
       m.tasksDefinitions.map Prod.fst = pyKeysFold [] (tds.map Tasks.file_name) ∧
       (swap = [Event.symlink "/backups/2024-01-02T03:04" (pathJoin c2Cfg.backupsFolder "current")] ∨
        swap = [Event.unlink (pathJoin c2Cfg.backupsFolder "current"),
                Event.symlink "/backups/2024-01-02T03:04" (pathJoin c2Cfg.backupsFolder "current")]) ∧
       (doBackup c2Cfg ⟨[], none⟩).1 = pre ++
         [Event.renameDir (doBackupTmp c2Cfg) "/backups/2024-01-02T03:04",
          Event.writeManifest "/backups/2024-01-02T03:04" m] ++ swap ++
         [Event.hook "backup:after" ["/backups/2024-01-02T03:04"]]) :=
  ⟨rfl, successful_run_seals_atomically c2Cfg ⟨[], none⟩ "/backups/2024-01-02T03:04" rfl⟩

end Mdbackup
